import Mathlib

/-!
Verification of the poker-rs core: a shallow embedding of the card types,
the five/seven-card evaluator (src/src/evaluator/), and the `Game` betting
state machine (src/src/game.rs), together with theorems about chip
conservation, side pots, raise rules, action errors and showdown behaviour.

Machine integers (`u64`, `usize`) are modelled as `Nat`; every subtraction in
the source is either guarded or saturating, so `Nat` subtraction coincides.
The deck is kept in draw order (the Rust `Vec` pops from the back; here the
head of the list is the next card drawn).  The per-hand shuffle seed is
external input, so `new_hand` is parametrised by the shuffled deck.
-/

namespace PokerRs

/-- Card suits; fixed order Clubs < Diamonds < Hearts < Spades (src/src/cards.rs). -/
inductive Suit where
  | clubs
  | diamonds
  | hearts
  | spades
deriving DecidableEq

/-- Discriminant of the derived `Ord` on `Suit`. -/
def Suit.toNat : Suit → Nat
  | .clubs => 0
  | .diamonds => 1
  | .hearts => 2
  | .spades => 3

/-- Card ranks Two..Ace with numeric values 2..14 (src/src/cards.rs). -/
inductive Rank where
  | two
  | three
  | four
  | five
  | six
  | seven
  | eight
  | nine
  | ten
  | jack
  | queen
  | king
  | ace
deriving DecidableEq

/-- `Rank::value` — the numeric comparison key 2..14. -/
def Rank.value : Rank → Nat
  | .two => 2
  | .three => 3
  | .four => 4
  | .five => 5
  | .six => 6
  | .seven => 7
  | .eight => 8
  | .nine => 9
  | .ten => 10
  | .jack => 11
  | .queen => 12
  | .king => 13
  | .ace => 14

/-- `Rank::ALL`, ascending. -/
def Rank.ALL : List Rank :=
  [.two, .three, .four, .five, .six, .seven, .eight, .nine, .ten,
   .jack, .queen, .king, .ace]

/-- A playing card: rank + suit (src/src/cards.rs). -/
structure Card where
  rank : Rank
  suit : Suit
deriving DecidableEq

/-- Placeholder card used to totalise out-of-bounds indexing (never reached
on in-bounds inputs). -/
def cardDefault : Card := ⟨.two, .clubs⟩

/-- Generic stable-enough insertion sort used to model `sort_by` /
`sort_unstable_by`; `le a b` means `a` may precede `b`.  All comparators in
the source are total orders whose ties are between identical values, so the
result is the unique sorted permutation. -/
def insertLe {α : Type} (le : α → α → Bool) (x : α) : List α → List α
  | [] => [x]
  | y :: l => if le x y then x :: y :: l else y :: insertLe le x l

/-- Sort a list with comparator `le` (models Rust's in-place sorts). -/
def sortByLe {α : Type} (le : α → α → Bool) : List α → List α
  | [] => []
  | x :: l => insertLe le x (sortByLe le l)

/-- Comparator of `HandAnalysis::new`: rank descending, ties by suit
descending (`b.rank().cmp(&a.rank()).then(b.suit().cmp(&a.suit()))`). -/
def cardDescLe (a b : Card) : Bool :=
  decide (b.rank.value < a.rank.value ∨
    (b.rank.value = a.rank.value ∧ b.suit.toNat ≤ a.suit.toNat))

/-- Comparator sorting ranks descending (`StraightInfo::detect`). -/
def rankDescLe (a b : Rank) : Bool := decide (b.value ≤ a.value)

/-- Poker hand category, ordinal 0..8 (src/src/evaluator/mod.rs). -/
inductive Category where
  | highCard
  | pair
  | twoPair
  | threeOfAKind
  | straight
  | flush
  | fullHouse
  | fourOfAKind
  | straightFlush
deriving DecidableEq

/-- `Category::ordinal` — the `repr(u8)` discriminant. -/
def Category.ordinal : Category → Nat
  | .highCard => 0
  | .pair => 1
  | .twoPair => 2
  | .threeOfAKind => 3
  | .straight => 4
  | .flush => 5
  | .fullHouse => 6
  | .fourOfAKind => 7
  | .straightFlush => 8

/-- `HandValue::from_parts`: category in the high byte (shift 48), then five
6-bit rank tiebreakers, r0 most significant (src/src/evaluator/mod.rs). -/
def handValueFromParts (category : Category) (ranksDesc : List Rank) : Nat :=
  ranksDesc.enum.foldl
    (fun v p => v ||| (p.2.value <<< (48 - 6 * (p.1 + 1))))
    (category.ordinal <<< 48)

/-- `Evaluation`: category, canonical best five, packed comparable value.
The Rust `PartialEq`/`Ord` on `Evaluation` compare only `value`; theorems
therefore compare `.value` where the source compares evaluations. -/
structure Evaluation where
  category : Category
  bestFive : List Card
  value : Nat
deriving DecidableEq

/-- `StraightInfo` (src/src/evaluator/straight_info.rs). -/
structure StraightInfo where
  isStraight : Bool
  topRank : Option Rank
deriving DecidableEq

/-- Are the (descending-sorted) ranks consecutive?  Models
`(0..4).all(|i| sorted[i].value() == sorted[i+1].value() + 1)`. -/
def consecDesc : List Rank → Bool
  | [] => true
  | [_] => true
  | a :: b :: l => (a.value == b.value + 1) && consecDesc (b :: l)

/-- `StraightInfo::detect`: regular straight, or the wheel A-2-3-4-5 whose
top rank is Five. -/
def straightDetect (ranks : List Rank) : StraightInfo :=
  let sorted := sortByLe rankDescLe ranks
  if consecDesc sorted then
    { isStraight := true, topRank := sorted.head? }
  else
    match sorted with
    | [.ace, .five, .four, .three, .two] =>
      { isStraight := true, topRank := some .five }
    | _ => { isStraight := false, topRank := none }

/-- `SuitInfo::detect`: do all cards share the first card's suit? -/
def suitIsFlush (cards : List Card) : Bool :=
  match cards with
  | [] => true
  | c :: _ => cards.all (fun x => x.suit == c.suit)

/-- Comparator of `RankGroups::from_counts`: count descending, then rank
descending. -/
def groupLe (a b : Rank × Nat) : Bool :=
  decide (b.2 < a.2 ∨ (b.2 = a.2 ∧ b.1.value ≤ a.1.value))

/-- `RankGroups::from_counts`: ranks with positive count, sorted by
(count desc, rank desc) (src/src/evaluator/rank_groups.rs). -/
def rankGroups (ranks : List Rank) : List (Rank × Nat) :=
  sortByLe groupLe
    ((Rank.ALL.map (fun r => (r, ranks.count r))).filter (fun g => 0 < g.2))

/-- `RankGroups::quad`. -/
def groupsQuad (groups : List (Rank × Nat)) : Option Rank :=
  (groups.find? (fun g => g.2 == 4)).map (·.1)

/-- `RankGroups::trips`. -/
def groupsTrips (groups : List (Rank × Nat)) : Option Rank :=
  (groups.find? (fun g => g.2 == 3)).map (·.1)

/-- `RankGroups::pairs`. -/
def groupsPairs (groups : List (Rank × Nat)) : List Rank :=
  (groups.filter (fun g => g.2 == 2)).map (·.1)

/-- `RankGroups::kickers`. -/
def groupsKickers (groups : List (Rank × Nat)) : List Rank :=
  (groups.filter (fun g => g.2 == 1)).map (·.1)

/-- `RankGroups::has_full_house`. -/
def groupsHasFullHouse (groups : List (Rank × Nat)) : Bool :=
  (groups.any (fun g => g.2 == 3)) && (groups.any (fun g => g.2 == 2))

/-- `HandAnalysis` (src/src/evaluator/hand_analysis.rs): cards sorted rank
descending with suit tiebreak, their ranks, rank groups, flush and straight
information. -/
structure HandAnalysis where
  sortedCards : List Card
  ranks : List Rank
  groups : List (Rank × Nat)
  isFlush : Bool
  straightInfo : StraightInfo

/-- `HandAnalysis::new`. -/
def handAnalysis (cards : List Card) : HandAnalysis :=
  let sortedCards := sortByLe cardDescLe cards
  let ranks := sortedCards.map (·.rank)
  { sortedCards := sortedCards
    ranks := ranks
    groups := rankGroups ranks
    isFlush := suitIsFlush sortedCards
    straightInfo := straightDetect ranks }

/-- `HandAnalysis::build_evaluation`. -/
def buildEvaluation (a : HandAnalysis) (category : Category)
    (tiebreak : List Rank) : Evaluation :=
  { category := category
    bestFive := a.sortedCards
    value := handValueFromParts category tiebreak }

/-- First kicker, totalised (Rust indexes `kickers()[0]`, only reached when
the kicker exists). -/
def headRank (l : List Rank) : Rank := l.headD .two

/-- `evaluate_five`: run the detectors in priority order
(src/src/evaluator/detector.rs `DETECTORS`) and build the evaluation of the
first that matches; HighCard is the always-matching fallback. -/
def evaluateFive (cards : List Card) : Evaluation :=
  let a := handAnalysis cards
  let top := a.straightInfo.topRank.getD .two
  if a.isFlush && a.straightInfo.isStraight then
    buildEvaluation a .straightFlush [top, .two, .two, .two, .two]
  else
    match groupsQuad a.groups with
    | some quadRank =>
      buildEvaluation a .fourOfAKind
        [quadRank, headRank (groupsKickers a.groups), .two, .two, .two]
    | none =>
      if groupsHasFullHouse a.groups then
        buildEvaluation a .fullHouse
          [(groupsTrips a.groups).getD .two, headRank (groupsPairs a.groups),
           .two, .two, .two]
      else if a.isFlush then
        buildEvaluation a .flush a.ranks
      else if a.straightInfo.isStraight then
        buildEvaluation a .straight [top, .two, .two, .two, .two]
      else
        match groupsTrips a.groups with
        | some trips =>
          let ks := groupsKickers a.groups
          buildEvaluation a .threeOfAKind
            [trips, headRank ks, headRank ks.tail, .two, .two]
        | none =>
          let ps := groupsPairs a.groups
          if ps.length == 2 then
            buildEvaluation a .twoPair
              [headRank ps, headRank ps.tail,
               headRank (groupsKickers a.groups), .two, .two]
          else if ps.length == 1 then
            let ks := groupsKickers a.groups
            buildEvaluation a .pair
              [headRank ps, headRank ks, headRank ks.tail,
               headRank ks.tail.tail, .two]
          else
            buildEvaluation a .highCard a.ranks

/-- State of the `Combinations7Choose5` iterator
(src/src/evaluator/combinations.rs): five indices and a done flag. -/
structure C75 where
  i0 : Nat
  i1 : Nat
  i2 : Nat
  i3 : Nat
  i4 : Nat
  done : Bool
deriving DecidableEq

/-- `Combinations7Choose5::new`. -/
def C75.init : C75 := ⟨0, 1, 2, 3, 4, false⟩

/-- `Combinations7Choose5::next`: yield the current indices, then find the
rightmost index `i` with `indices[i] < 7 - (5 - i)` (unrolled for
i = 4, 3, 2, 1, 0), increment it and reset the indices to its right; mark
done when no index can be incremented. -/
def C75.next (s : C75) : Option (List Nat) × C75 :=
  if s.done then (none, s)
  else
    let result := [s.i0, s.i1, s.i2, s.i3, s.i4]
    let s' :=
      if s.i4 < 6 then { s with i4 := s.i4 + 1 }
      else if s.i3 < 5 then { s with i3 := s.i3 + 1, i4 := s.i3 + 2 }
      else if s.i2 < 4 then
        { s with i2 := s.i2 + 1, i3 := s.i2 + 2, i4 := s.i2 + 3 }
      else if s.i1 < 3 then
        { s with i1 := s.i1 + 1, i2 := s.i1 + 2, i3 := s.i1 + 3,
                 i4 := s.i1 + 4 }
      else if s.i0 < 2 then
        { s with i0 := s.i0 + 1, i1 := s.i0 + 2, i2 := s.i0 + 3,
                 i3 := s.i0 + 4, i4 := s.i0 + 5 }
      else { s with done := true }
    (some result, s')

/-- Collect the iterator's output (fuelled; the iterator yields 21 items). -/
def c75run : Nat → C75 → List (List Nat)
  | 0, _ => []
  | fuel + 1, s =>
    match s.next with
    | (none, _) => []
    | (some r, s') => r :: c75run fuel s'

/-- All index combinations yielded by `Combinations7Choose5`. -/
def combos7c5 : List (List Nat) := c75run 25 C75.init

/-- Select the cards at the given indices (`cards[indices[k]]`). -/
def selectCards (cards : List Card) (idxs : List Nat) : List Card :=
  idxs.map (fun i => cards.getD i cardDefault)

/-- One step of the `evaluate_seven` maximum fold: replace `best` when it is
empty or the new evaluation's value is strictly greater
(`best.as_ref().map_or(true, |b| eval > *b)`). -/
def evalSevenStep (cards : List Card) (best : Option Evaluation)
    (idxs : List Nat) : Option Evaluation :=
  let eval := evaluateFive (selectCards cards idxs)
  match best with
  | none => some eval
  | some b => if b.value < eval.value then some eval else some b

/-- `evaluate_seven`: fold the 21 combinations, keeping the best evaluation;
the fallback (first five cards) is unreachable since the list is nonempty. -/
def evaluateSeven (cards : List Card) : Evaluation :=
  match combos7c5.foldl (evalSevenStep cards) none with
  | some b => b
  | none => evaluateFive (selectCards cards [0, 1, 2, 3, 4])

/-- `HandError` (src/src/hand.rs); the display strings are dropped. -/
inductive HandError where
  | duplicateHoleCards
  | tooManyBoardCards (n : Nat)
  | duplicateBoardCards
  | overlap
  | holeCount (n : Nat)
deriving DecidableEq

/-- A player's two private hole cards (src/src/hand.rs); `try_new` is the
only constructor used by the engine and rejects equal cards. -/
structure HoleCards where
  first : Card
  second : Card
deriving DecidableEq

/-- `HoleCards::try_new`. -/
def HoleCards.tryNew (a b : Card) : Except HandError HoleCards :=
  if a = b then .error .duplicateHoleCards else .ok ⟨a, b⟩

/-- `validate_holdem` (src/src/hand.rs): board size ≤ 5, board duplicate-free,
hole disjoint from board, hole cards distinct.  The board is carried as a
plain list of cards. -/
def validateHoldem (hole : HoleCards) (board : List Card) :
    Except HandError Unit :=
  if 5 < board.length then .error (.tooManyBoardCards board.length)
  else if ¬ board.Nodup then .error .duplicateBoardCards
  else if hole.first ∈ board ∨ hole.second ∈ board then .error .overlap
  else if hole.first = hole.second then .error .duplicateHoleCards
  else .ok ()

/-- `EvalError` (src/src/evaluator/mod.rs). -/
inductive EvalError where
  | invalidHand (e : HandError)
  | notEnoughCards
deriving DecidableEq

/-- `evaluate_holdem`: validate, require a 5-card board, evaluate the 7-card
set of the two hole cards followed by the board. -/
def evaluateHoldem (hole : HoleCards) (board : List Card) :
    Except EvalError Evaluation :=
  match validateHoldem hole board with
  | .error e => .error (.invalidHand e)
  | .ok _ =>
    if board.length < 5 then .error .notEnoughCards
    else .ok (evaluateSeven ([hole.first, hole.second] ++ board.take 5))


/-- `PlayerStatus` (src/src/game.rs). -/
inductive PlayerStatus where
  | active
  | folded
  | allIn
deriving DecidableEq

/-- `Street` (src/src/game.rs). -/
inductive Street where
  | preflop
  | flop
  | turn
  | river
  | showdown
deriving DecidableEq

/-- `HandHistoryVerb` (src/src/game.rs). -/
inductive HandHistoryVerb where
  | smallBlind
  | bigBlind
  | seatFolds
  | check
  | call
  | bet
  | raiseTo
  | win
  | split
deriving DecidableEq

/-- `ActionError` (src/src/game.rs). -/
inductive ActionError where
  | showdown
  | playerNotActive
  | betNotAllowed
  | raiseNotAllowed
  | amountTooSmall (min got : Nat)
  | amountTooLarge (max got : Nat)
  | targetTooLow (current target : Nat)
deriving DecidableEq

/-- `ShowdownError` (src/src/game.rs); diagnostic strings dropped. -/
inductive ShowdownError where
  | evaluationFailed
  | invalidState
deriving DecidableEq

/-- `HandHistoryEntry` (src/src/game.rs). -/
structure HandHistoryEntry where
  seat : Nat
  verb : HandHistoryVerb
  amount : Option Nat
  street : Street
deriving DecidableEq

/-- The `last_action` display strings ("SB 5", "Bet 30", ...), modelled as
tagged values (the formatting is injective on these shapes). -/
inductive LastAct where
  | sb (amt : Nat)
  | bb (amt : Nat)
  | seatFolds
  | check
  | call (amt : Nat)
  | bet (amt : Nat)
  | raiseTo (amt : Nat)
  | win (amt : Nat)
  | split (amt : Nat)
deriving DecidableEq

/-- `Player` (src/src/game.rs); the display-only `name` is dropped. -/
structure Player where
  stack : Nat
  bet : Nat
  contributed : Nat
  status : PlayerStatus
  hole : Option HoleCards
  lastAction : Option LastAct
deriving DecidableEq

/-- Placeholder player used to totalise out-of-bounds indexing. -/
def playerDefault : Player := ⟨0, 0, 0, .folded, none, none⟩

/-- `Game` (src/src/game.rs).  The deck is the list of cards still to be
drawn, in draw order. -/
structure Game where
  smallBlind : Nat
  bigBlind : Nat
  startingStack : Nat
  deck : List Card
  board : List Card
  players : List Player
  pot : Nat
  dealer : Nat
  current : Nat
  street : Street
  currentBet : Nat
  minRaise : Nat
  lastRaiser : Option Nat
  roundStarter : Nat
  sbPos : Option Nat
  bbPos : Option Nat
  winners : List Nat
  showdownCategories : List (Option Category)
  handHistory : List HandHistoryEntry
deriving DecidableEq

/-- `Game::new` with the standard (unshuffled) deck dropped: the deck is
installed by `new_hand`; names are display-only and dropped. -/
def Game.new (numPlayers startingStack smallBlind bigBlind : Nat) : Game :=
  { smallBlind := smallBlind
    bigBlind := bigBlind
    startingStack := startingStack
    deck := []
    board := []
    players := List.replicate numPlayers
      ⟨startingStack, 0, 0, .active, none, none⟩
    pot := 0
    dealer := 0
    current := 0
    street := .preflop
    currentBet := 0
    minRaise := bigBlind
    lastRaiser := none
    roundStarter := 0
    sbPos := none
    bbPos := none
    winners := []
    showdownCategories := List.replicate numPlayers none
    handHistory := [] }

/-- Indexing `self.players[idx]` (in-bounds in all reachable uses). -/
def Game.player (g : Game) (idx : Nat) : Player :=
  g.players.getD idx playerDefault

/-- Writing `self.players[idx]`. -/
def Game.setPlayer (g : Game) (idx : Nat) (p : Player) : Game :=
  { g with players := g.players.set idx p }

/-- `Game::is_eligible`. -/
def Game.isEligible (g : Game) (idx : Nat) : Bool :=
  (g.player idx).status == .active

/-- `Game::count_eligible`. -/
def Game.countEligible (g : Game) : Nat :=
  (g.players.filter (fun p => p.status == .active)).length

/-- Loop body of `Game::next_eligible_from` (fuelled by the player count). -/
def Game.nextEligibleGo (g : Game) : Nat → Nat → Nat → Nat
  | 0, _, start => start % g.players.length
  | fuel + 1, i, start =>
    if g.isEligible i then i
    else g.nextEligibleGo fuel ((i + 1) % g.players.length) start

/-- `Game::next_eligible_from`: the next Active seat strictly after `start`
(cyclically); `start % n` when none exists. -/
def Game.nextEligibleFrom (g : Game) (start : Nat) : Nat :=
  if g.players.isEmpty then 0
  else g.nextEligibleGo g.players.length ((start + 1) % g.players.length) start

/-- `Game::to_call`: 0 at showdown, else saturating
`current_bet - players[idx].bet`. -/
def Game.toCall (g : Game) (idx : Nat) : Nat :=
  if g.street = .showdown then 0
  else g.currentBet - (g.player idx).bet

/-- `Game::ensure_can_act`: `none` means the action may proceed. -/
def Game.ensureCanAct (g : Game) : Option ActionError :=
  if g.street = .showdown then some .showdown
  else if ¬ g.isEligible g.current then some .playerNotActive
  else none

/-- `Game::pay_amount`: move `min(stack, amount)` from the seat's stack into
its bet, its contributed total and the pot, marking the seat AllIn when the
stack reaches zero.  Returns the amount actually paid. -/
def Game.payAmount (g : Game) (idx amount : Nat) : Nat × Game :=
  let p := g.player idx
  let paid := min p.stack amount
  let p1 := { p with stack := p.stack - paid, bet := p.bet + paid,
                     contributed := p.contributed + paid }
  let p2 := if p1.stack = 0 then { p1 with status := .allIn } else p1
  (paid, { g.setPlayer idx p2 with pot := g.pot + paid })

/-- `Game::record_history`. -/
def Game.recordHistory (g : Game) (seat : Nat) (verb : HandHistoryVerb)
    (amount : Option Nat) : Game :=
  { g with handHistory := g.handHistory ++ [⟨seat, verb, amount, g.street⟩] }

/-- Loop body of `Game::complete_board` (draw while the board has fewer than
five cards and the deck is nonempty; at most five iterations are needed). -/
def Game.completeBoardGo : Nat → Game → Game
  | 0, g => g
  | fuel + 1, g =>
    if g.board.length < 5 then
      match g.deck with
      | [] => g
      | c :: rest =>
        Game.completeBoardGo fuel { g with board := g.board ++ [c], deck := rest }
    else g

/-- `Game::complete_board`: returns whether the board reached five cards. -/
def Game.completeBoard (g : Game) : Bool × Game :=
  let g1 := Game.completeBoardGo 5 g
  (g1.board.length == 5, g1)

/-- Consecutive-duplicate removal, modelling `Vec::dedup`. -/
def dedupConsec : List Nat → List Nat
  | [] => []
  | [a] => [a]
  | a :: b :: l =>
    if a = b then dedupConsec (b :: l) else a :: dedupConsec (b :: l)

/-- The distinct positive contribution levels, ascending
(`levels` in `Game::calculate_side_pots` / `pot_breakdown`). -/
def Game.contributionLevels (g : Game) : List Nat :=
  dedupConsec (List.insertionSort (· ≤ ·)
    ((g.players.map (·.contributed)).filter (fun c => decide (0 < c))))

/-- Seats whose contribution reaches `lvl` (and is positive), in seat order
(the `contributors` filter of `Game::calculate_side_pots`). -/
def Game.contributorIdxs (g : Game) (lvl : Nat) : List Nat :=
  (List.range g.players.length).filter
    (fun i => decide (lvl ≤ (g.player i).contributed ∧ 0 < (g.player i).contributed))

/-- Loop of `Game::calculate_side_pots`: walk the levels carrying the
previous level, emitting `(lvl - prev) * #contributors` when positive. -/
def Game.sidePotsGo (g : Game) : Nat → List Nat → List (Nat × List Nat)
  | _, [] => []
  | prev, lvl :: rest =>
    let contributors := g.contributorIdxs lvl
    let amount := (lvl - prev) * contributors.length
    if 0 < amount then (amount, contributors) :: g.sidePotsGo lvl rest
    else g.sidePotsGo lvl rest

/-- `Game::calculate_side_pots`. -/
def Game.calculateSidePots (g : Game) : List (Nat × List Nat) :=
  g.sidePotsGo 0 g.contributionLevels

/-- Loop of `Game::find_pot_winners`.  The running best is kept as the best
value seen (the Rust code keeps the `Evaluation` but compares only values);
`acc` is the winner list built so far. -/
def findPotWinnersGo (evals : List (Option Evaluation)) :
    List Nat → Option Nat → List Nat → Except ShowdownError (List Nat)
  | [], _, acc => .ok acc
  | i :: rest, best, acc =>
    match evals.getD i none with
    | none => .error .invalidState
    | some ev =>
      match best with
      | none => findPotWinnersGo evals rest (some ev.value) (acc ++ [i])
      | some b =>
        if b < ev.value then findPotWinnersGo evals rest (some ev.value) [i]
        else if ev.value = b then findPotWinnersGo evals rest (some b) (acc ++ [i])
        else findPotWinnersGo evals rest (some b) acc

/-- `Game::find_pot_winners`. -/
def findPotWinners (eligible : List Nat)
    (evals : List (Option Evaluation)) : Except ShowdownError (List Nat) :=
  findPotWinnersGo evals eligible none []

/-- Loop of `Game::distribute_pot`: hand each winner `per`, plus one extra
chip while the remainder lasts. -/
def distributePotGo (per : Nat) (isSplit : Bool) :
    List Nat → Nat → List (Nat × Nat × Bool)
  | [], _ => []
  | w :: ws, rem =>
    if 0 < rem then (w, per + 1, isSplit) :: distributePotGo per isSplit ws (rem - 1)
    else (w, per, isSplit) :: distributePotGo per isSplit ws 0

/-- `Game::distribute_pot` (the `_start_seat`/`_num_players` arguments are
unused in the source). -/
def distributePot (potAmount : Nat) (winners : List Nat) :
    List (Nat × Nat × Bool) :=
  if winners.isEmpty then []
  else
    distributePotGo (potAmount / winners.length) (1 < winners.length)
      winners (potAmount % winners.length)

/-- The seat-ordering key used for pot winners and the winners list:
distance clockwise from `start` (the seat left of the dealer). -/
def potOrderKey (start n i : Nat) : Nat := (i + n - start) % n

/-- Sum of all players' `contributed`. -/
def contribSum (g : Game) : Nat := (g.players.map (·.contributed)).sum

/-- Sum of all players' stacks. -/
def stackSum (g : Game) : Nat := (g.players.map (·.stack)).sum

/-- Sum of `stack + contributed` over all players — the quantity the spec's
conservation invariant tracks during a hand. -/
def stackContribSum (g : Game) : Nat :=
  (g.players.map (fun p => p.stack + p.contributed)).sum

/-- `Game::sync_pot_with_contributions`: error (without mutation) on an
empty pot, otherwise set `pot` to the contributed total. -/
def Game.syncPotWithContributions (g : Game) : Except ShowdownError Game :=
  if contribSum g = 0 then .error .invalidState
  else .ok { g with pot := contribSum g }

/-- `Game::award_pot_to_single_winner`. -/
def Game.awardPotToSingleWinner (g : Game) (winnerIdx : Nat)
    (category : Option Category) : Game :=
  let amount := g.pot
  let p := g.player winnerIdx
  let g1 := g.setPlayer winnerIdx
    { p with stack := p.stack + amount, lastAction := some (.win amount) }
  let g2 := g1.recordHistory winnerIdx .win (some amount)
  let g3 := { g2 with pot := 0, winners := [winnerIdx] }
  match category with
  | some cat =>
    if winnerIdx < g3.showdownCategories.length then
      { g3 with showdownCategories :=
          g3.showdownCategories.set winnerIdx (some cat) }
    else g3
  | none => g3

/-- Result of `Game::handle_simple_showdown`: either the showdown was fully
handled, or the (mutated) state should continue with the full side-pot
resolution. -/
inductive SimpleOutcome where
  | handled (g : Game)
  | notHandled (g : Game)

/-- `Game::handle_simple_showdown`: clear per-street bets, then settle the
0-contender, 1-contender and exhausted-deck cases. -/
def Game.handleSimpleShowdown (g : Game) (contenders : List Nat) :
    SimpleOutcome :=
  let g1 := { g with players := g.players.map (fun p => { p with bet := 0 }) }
  match contenders with
  | [] =>
    let i := if g1.players.isEmpty then 0
             else (g1.dealer + 1) % g1.players.length
    .handled (g1.awardPotToSingleWinner i none)
  | [i] =>
    let category :=
      if 5 ≤ g1.board.length then
        ((g1.player i).hole.bind
          (fun h => (evaluateHoldem h g1.board).toOption)).map (·.category)
      else none
    .handled (g1.awardPotToSingleWinner i category)
  | i :: _ =>
    if g1.board.length < 5 then
      let bc := g1.completeBoard
      if bc.1 then .notHandled bc.2
      else .handled (bc.2.awardPotToSingleWinner i none)
    else .notHandled g1

/-- Loop of `Game::evaluate_all_hands`: evaluate each contender, recording
its category; on failure the partially updated state is kept (the Rust
method mutates `self` as it goes). -/
def Game.evaluateAllHandsGo (evals : List (Option Evaluation)) :
    List Nat → Game → Except ShowdownError (List (Option Evaluation)) × Game
  | [], g => (.ok evals, g)
  | i :: rest, g =>
    match (g.player i).hole with
    | none => (.error .invalidState, g)
    | some h =>
      match evaluateHoldem h g.board with
      | .error _ => (.error .evaluationFailed, g)
      | .ok ev =>
        let g1 :=
          if i < g.showdownCategories.length then
            { g with showdownCategories :=
                g.showdownCategories.set i (some ev.category) }
          else g
        Game.evaluateAllHandsGo (evals.set i (some ev)) rest g1

/-- `Game::evaluate_all_hands`. -/
def Game.evaluateAllHands (g : Game) (contenders : List Nat) :
    Except ShowdownError (List (Option Evaluation)) × Game :=
  Game.evaluateAllHandsGo (List.replicate g.players.length none) contenders g

/-- The per-pot eligibility filter of `Game::finish_showdown`: contributors
that are not folded and hold cards. -/
def Game.eligibleOf (g : Game) (contributors : List Nat) : List Nat :=
  contributors.filter
    (fun i => decide (¬ (g.player i).status = .folded ∧ (g.player i).hole.isSome))

/-- Apply one pot's distribution entries to the winnings/split tables
(`winnings[i] += amt; if is_split { split[i] = true }`). -/
def applyDistribution (entries : List (Nat × Nat × Bool))
    (winnings : List Nat) (split : List Bool) : List Nat × List Bool :=
  entries.foldl
    (fun acc e =>
      (acc.1.set e.1 (acc.1.getD e.1 0 + e.2.1),
       if e.2.2 then acc.2.set e.1 true else acc.2))
    (winnings, split)

/-- The side-pot distribution loop of `Game::finish_showdown` (step 6). -/
def Game.distributeLoop (g : Game) (evals : List (Option Evaluation))
    (start n : Nat) :
    List (Nat × List Nat) → List Nat → List Bool →
    Except ShowdownError (List Nat × List Bool)
  | [], winnings, split => .ok (winnings, split)
  | (amount, contributors) :: rest, winnings, split =>
    let eligible := g.eligibleOf contributors
    if eligible.isEmpty then g.distributeLoop evals start n rest winnings split
    else
      match findPotWinners eligible evals with
      | .error e => .error e
      | .ok potWinners =>
        if potWinners.isEmpty then
          g.distributeLoop evals start n rest winnings split
        else
          let sorted := sortByLe
            (fun a b => potOrderKey start n a ≤ potOrderKey start n b) potWinners
          let dist := distributePot amount sorted
          let ws := applyDistribution dist winnings split
          g.distributeLoop evals start n rest ws.1 ws.2

/-- `Game::finalize_showdown`: pay winnings, record Win/Split entries, order
the winners by closeness to the left of the dealer, and reset the round
state to neutral values. -/
def Game.finalizeShowdown (g : Game) (winnings : List Nat)
    (split : List Bool) : Game :=
  let n := g.players.length
  let start := if n = 0 then 0 else (g.dealer + 1) % n
  let g1 := (List.range n).foldl
    (fun g i =>
      let amt := winnings.getD i 0
      if amt = 0 then g
      else
        let p := g.player i
        let isSplit := split.getD i false
        let g := g.setPlayer i
          { p with stack := p.stack + amt,
                   lastAction := some (if isSplit then .split amt else .win amt) }
        g.recordHistory i (if isSplit then .split else .win) (some amt)) g
  let ws := sortByLe (fun a b => potOrderKey start n a ≤ potOrderKey start n b)
    ((List.range n).filter (fun i => ¬ (winnings.getD i 0 = 0)))
  { g1 with pot := 0, currentBet := 0, minRaise := g1.bigBlind,
            lastRaiser := none, roundStarter := g1.current, winners := ws }

/-- The contender seats: not folded, holding cards (step 2 of
`Game::finish_showdown`). -/
def Game.contenders (g : Game) : List Nat :=
  (List.range g.players.length).filter
    (fun i => decide (¬ (g.player i).status = .folded ∧ (g.player i).hole.isSome))

/-- `Game::finish_showdown`: sync the pot, settle simple cases, evaluate all
contenders, build side pots, distribute each, finalize.  Like the Rust
`&mut self` method it returns the mutated state alongside the result. -/
def Game.finishShowdown (g : Game) : Except ShowdownError Unit × Game :=
  match g.syncPotWithContributions with
  | .error _ => (.ok (), g)
  | .ok g1 =>
    match g1.handleSimpleShowdown g1.contenders with
    | .handled g2 => (.ok (), g2)
    | .notHandled g2 =>
      match g2.evaluateAllHands g1.contenders with
      | (.error e, g3) => (.error e, g3)
      | (.ok evals, g3) =>
        let n := g3.players.length
        let start := if n = 0 then 0 else (g3.dealer + 1) % n
        match g3.distributeLoop evals start n g3.calculateSidePots
            (List.replicate n 0) (List.replicate n false) with
        | .error e => (.error e, g3)
        | .ok ws => (.ok (), g3.finalizeShowdown ws.1 ws.2)

/-- The `maybe_force_showdown` guard for a lone Active seat that still
faces a bet (`p.bet < current_bet` for the first Active player, if any). -/
def Game.singleActiveUnmatched (g : Game) : Bool :=
  match g.players.find? (fun p => p.status == .active) with
  | some p => decide (p.bet < g.currentBet)
  | none => false

/-- Number of seats that are not folded and hold cards (the contender count
used by `maybe_force_showdown`). -/
def Game.holeContendersCount (g : Game) : Nat :=
  (g.players.filter
    (fun p => decide (¬ p.status = .folded ∧ p.hole.isSome))).length

/-- `Game::maybe_force_showdown`: when at most one Active seat remains (and
any remaining Active seat has matched the current bet), complete the board
if more than one contender holds cards, and resolve showdown at once. -/
def Game.maybeForceShowdown (g : Game) : Game :=
  if g.street = .showdown then g
  else
    let active := g.countEligible
    if 1 < active then g
    else if active == 1 && g.singleActiveUnmatched then g
    else
      let g1 := if 1 < g.holeContendersCount ∧ g.board.length < 5
                then (g.completeBoard).2 else g
      (Game.finishShowdown { g1 with street := .showdown }).2

/-- Loop of `Game::reset_bets_set_current_postflop`: starting from the seat
left of the dealer, advance past ineligible seats, stopping (at `first`)
after a full cycle. -/
def Game.findCurGo (g : Game) (first : Nat) : Nat → Nat → Nat
  | 0, cur => cur
  | fuel + 1, cur =>
    if g.isEligible cur then cur
    else
      let c1 := (cur + 1) % g.players.length
      if c1 = first then c1 else g.findCurGo first fuel c1

/-- `Game::reset_bets_set_current_postflop`: zero the per-round bets, clear
last actions, and reset the round state for the new street. -/
def Game.resetBetsSetCurrentPostflop (g : Game) : Game :=
  let ps := g.players.map (fun p => { p with bet := 0, lastAction := none })
  let g1 := { g with players := ps }
  if g1.players.isEmpty then g1
  else
    let n := g1.players.length
    let first := (g1.dealer + 1) % n
    let cur := g1.findCurGo first n first
    { g1 with current := cur, currentBet := 0, minRaise := g1.bigBlind,
              lastRaiser := none, roundStarter := cur }

/-- `Game::deal_next_street`: deal flop/turn/river and reset the round, or
resolve showdown after the river. -/
def Game.dealNextStreet (g : Game) : Game :=
  match g.street with
  | .preflop =>
    ({ g with deck := g.deck.drop 3, board := g.board ++ g.deck.take 3,
              street := .flop }).resetBetsSetCurrentPostflop
  | .flop =>
    match g.deck with
    | [] => g
    | c :: rest =>
      ({ g with deck := rest, board := g.board ++ [c],
                street := .turn }).resetBetsSetCurrentPostflop
  | .turn =>
    match g.deck with
    | [] => g
    | c :: rest =>
      ({ g with deck := rest, board := g.board ++ [c],
                street := .river }).resetBetsSetCurrentPostflop
  | .river => (Game.finishShowdown { g with street := .showdown }).2
  | .showdown => g

/-- `Game::should_end_round`. -/
def Game.shouldEndRound (g : Game) : Bool :=
  if g.countEligible ≤ 1 then
    match g.players.find? (fun p => p.status == .active) with
    | some p => ! decide (p.bet < g.currentBet)
    | none => true
  else if ! (g.players.filter (fun p => p.status == .active)).all
      (fun p => p.bet == g.currentBet) then false
  else g.current == g.roundStarter

/-- `Game::progress_round`: advance to the next eligible seat, close the
round when due (dealing the next street or resolving the river), then check
for a forced showdown. -/
def Game.progressRound (g : Game) (prevActor : Nat)
    (forceNextStreet : Bool) : Game :=
  let g1 := { g with current := g.nextEligibleFrom prevActor }
  let g2 :=
    if g1.shouldEndRound then
      if forceNextStreet then g1.dealNextStreet
      else
        match g1.street with
        | .preflop | .flop | .turn => g1.dealNextStreet
        | .river => (Game.finishShowdown { g1 with street := .showdown }).2
        | .showdown => g1
    else g1
  g2.maybeForceShowdown

/-- `Game::advance_or_move`. -/
def Game.advanceOrMove (g : Game) : Game :=
  g.progressRound g.current false

/-- `Game::update_raise_state`: the full-versus-short-raise rule.  A raise
of at least `min_raise` updates `min_raise`, `last_raiser` and
`round_starter`; a short all-in raise leaves them untouched; in both cases
`current_bet` rises to the new bet. -/
def Game.updateRaiseState (g : Game) (raiserIdx newBet : Nat) : Game :=
  if g.currentBet < newBet then
    let raiseAmt := newBet - g.currentBet
    let g1 :=
      if g.minRaise ≤ raiseAmt then
        { g with minRaise := max g.minRaise raiseAmt,
                 lastRaiser := some raiserIdx, roundStarter := raiserIdx }
      else g
    { g1 with currentBet := newBet }
  else g

/-- The `last_action` value written by `place_to_amount` for each verb. -/
def lastActOfVerb (verb : HandHistoryVerb) (amt : Nat) : LastAct :=
  match verb with
  | .smallBlind => .sb amt
  | .bigBlind => .bb amt
  | .seatFolds => .seatFolds
  | .check => .check
  | .call => .call amt
  | .bet => .bet amt
  | .raiseTo => .raiseTo amt
  | .win => .win amt
  | .split => .split amt

/-- `Game::place_to_amount`: raise the current seat's round bet to
`target_total` (TargetTooLow when not strictly above the current bet), then
update the raise state and progress the round. -/
def Game.placeToAmount (g : Game) (targetTotal : Nat)
    (verb : HandHistoryVerb) : Except ActionError Unit × Game :=
  let idx := g.current
  let curr := (g.player idx).bet
  if targetTotal ≤ curr then (.error (.targetTooLow curr targetTotal), g)
  else
    let need := targetTotal - curr
    let g1 := (g.payAmount idx need).2
    let newBet := (g1.player idx).bet
    let g2 := g1.setPlayer idx
      { g1.player idx with lastAction := some (lastActOfVerb verb newBet) }
    let g3 := g2.recordHistory idx verb (some newBet)
    let g4 := g3.updateRaiseState idx newBet
    (.ok (), g4.progressRound idx true)

/-- `Game::action_fold`. -/
def Game.actionFold (g : Game) : Except ActionError Unit × Game :=
  match g.ensureCanAct with
  | some e => (.error e, g)
  | none =>
    let p := g.player g.current
    let g1 := g.setPlayer g.current
      { p with status := .folded, lastAction := some .seatFolds }
    let g2 := g1.recordHistory g1.current .seatFolds none
    if g2.countEligible ≤ 1 then
      (.ok (), (Game.finishShowdown { g2 with street := .showdown }).2)
    else
      (.ok (), g2.advanceOrMove)

/-- `Game::action_check_call`. -/
def Game.actionCheckCall (g : Game) : Except ActionError Unit × Game :=
  match g.ensureCanAct with
  | some e => (.error e, g)
  | none =>
    let tc := g.toCall g.current
    if tc = 0 then
      let p := g.player g.current
      let g1 := g.setPlayer g.current { p with lastAction := some .check }
      let g2 := g1.recordHistory g1.current .check none
      (.ok (), g2.advanceOrMove)
    else
      let idx := g.current
      let pg := g.payAmount idx tc
      let g1 := pg.2
      let g2 := g1.setPlayer idx
        { g1.player idx with lastAction := some (.call pg.1) }
      let g3 := g2.recordHistory idx .call (some pg.1)
      (.ok (), g3.advanceOrMove)

/-- `Game::action_bet_min`. -/
def Game.actionBetMin (g : Game) : Except ActionError Unit × Game :=
  match g.ensureCanAct with
  | some e => (.error e, g)
  | none =>
    if 0 < g.currentBet then (.error .betNotAllowed, g)
    else g.placeToAmount (max g.bigBlind 1) .bet

/-- `Game::action_bet`. -/
def Game.actionBet (g : Game) (amount : Nat) : Except ActionError Unit × Game :=
  match g.ensureCanAct with
  | some e => (.error e, g)
  | none =>
    if 0 < g.currentBet then (.error .betNotAllowed, g)
    else
      let minBet := max g.bigBlind 1
      if amount < minBet then (.error (.amountTooSmall minBet amount), g)
      else
        let maxTotal := (g.player g.current).bet + (g.player g.current).stack
        if maxTotal < amount then (.error (.amountTooLarge maxTotal amount), g)
        else g.placeToAmount amount .bet

/-- `Game::action_raise_min`. -/
def Game.actionRaiseMin (g : Game) : Except ActionError Unit × Game :=
  match g.ensureCanAct with
  | some e => (.error e, g)
  | none =>
    if g.currentBet = 0 then (.error .raiseNotAllowed, g)
    else g.placeToAmount (g.currentBet + g.minRaise) .raiseTo

/-- `Game::action_raise_to`. -/
def Game.actionRaiseTo (g : Game) (amount : Nat) :
    Except ActionError Unit × Game :=
  match g.ensureCanAct with
  | some e => (.error e, g)
  | none =>
    if g.currentBet = 0 then (.error .raiseNotAllowed, g)
    else
      let maxTotal := (g.player g.current).bet + (g.player g.current).stack
      if maxTotal < amount then (.error (.amountTooLarge maxTotal amount), g)
      else
        let minTarget := g.currentBet + g.minRaise
        if amount < minTarget ∧ amount < maxTotal then
          (.error (.amountTooSmall minTarget amount), g)
        else g.placeToAmount amount .raiseTo

/-- `Game::advance_dealer`. -/
def Game.advanceDealer (g : Game) : Game :=
  if g.players.isEmpty then g
  else { g with dealer := (g.dealer + 1) % g.players.length }

/-- `Game::reset_hand_state`, parametrised by the freshly shuffled deck (the
seed comes from the system RNG and the seeded shuffle is a pure permutation,
so the shuffled deck is the function's input here). -/
def Game.resetHandState (g : Game) (shuffled : List Card) : Game :=
  { g with deck := shuffled, board := [], pot := 0, street := .preflop,
           handHistory := [], currentBet := 0, minRaise := g.bigBlind,
           lastRaiser := none, roundStarter := g.dealer, current := g.dealer,
           sbPos := none, bbPos := none }

/-- `Game::reset_players_for_new_hand`: zero bets and contributions, clear
holes and last actions; busted seats (stack 0) sit out as Folded. -/
def Game.resetPlayersForNewHand (g : Game) : Game :=
  let ps := g.players.map (fun p =>
    { p with bet := 0, contributed := 0, hole := none, lastAction := none,
             status := if p.stack = 0 then .folded else .active })
  { g with players := ps }

/-- Loop of `Game::align_dealer_to_eligible` (at most `n` advances). -/
def Game.alignDealerGo (g : Game) : Nat → Nat → Nat
  | 0, dealer => dealer
  | fuel + 1, dealer =>
    if g.isEligible dealer then dealer
    else g.alignDealerGo fuel ((dealer + 1) % g.players.length)

/-- `Game::align_dealer_to_eligible`. -/
def Game.alignDealerToEligible (g : Game) : Game :=
  if g.players.isEmpty then g
  else { g with dealer := g.alignDealerGo g.players.length g.dealer }

/-- Loop of `Game::deal_hole_cards`: walk the seats in order; each Active
seat draws two cards (both draws happen even if the deck runs dry) and
receives them when `HoleCards::try_new` succeeds. -/
def dealHoleGo : List Player → List Card → List Player × List Card
  | [], deck => ([], deck)
  | p :: ps, deck =>
    if p.status = .active then
      match deck with
      | a :: b :: rest =>
        let p1 := match HoleCards.tryNew a b with
          | .ok h => { p with hole := some h }
          | .error _ => p
        let r := dealHoleGo ps rest
        (p1 :: r.1, r.2)
      | [_] =>
        let r := dealHoleGo ps []
        (p :: r.1, r.2)
      | [] =>
        let r := dealHoleGo ps []
        (p :: r.1, r.2)
    else
      let r := dealHoleGo ps deck
      (p :: r.1, r.2)

/-- `Game::deal_hole_cards`. -/
def Game.dealHoleCards (g : Game) : Game :=
  let r := dealHoleGo g.players g.deck
  { g with players := r.1, deck := r.2 }

/-- `Game::determine_blind_positions`: dealer is SB heads-up, else SB is the
next eligible seat left of the dealer; BB follows the SB. -/
def Game.determineBlindPositions (g : Game) (eligibleCount : Nat) :
    Nat × Nat :=
  if eligibleCount = 2 then
    (g.dealer, g.nextEligibleFrom g.dealer)
  else
    let sb := g.nextEligibleFrom g.dealer
    (sb, g.nextEligibleFrom sb)

/-- `Game::determine_first_actor`. -/
def Game.determineFirstActor (g : Game) (bbPos eligibleCount : Nat) : Nat :=
  if eligibleCount = 2 then g.dealer else g.nextEligibleFrom bbPos

/-- `Game::post_blinds`: pay the blinds, record them, and return the amount
the big blind actually posted. -/
def Game.postBlinds (g : Game) (sbPos bbPos : Nat) : Nat × Game :=
  let r1 := g.payAmount sbPos g.smallBlind
  let g1 := r1.2.setPlayer sbPos
    { r1.2.player sbPos with lastAction := some (.sb r1.1) }
  let g2 := g1.recordHistory sbPos .smallBlind (some r1.1)
  let r2 := g2.payAmount bbPos g2.bigBlind
  let g3 := r2.2.setPlayer bbPos
    { r2.2.player bbPos with lastAction := some (.bb r2.1) }
  let g4 := g3.recordHistory bbPos .bigBlind (some r2.1)
  (r2.1, g4)

/-- `Game::setup_preflop`: with fewer than two eligible seats go straight to
showdown; otherwise post the blinds, set `current_bet` and `min_raise` to
the amount the BB actually paid, and seat the first actor. -/
def Game.setupPreflop (g : Game) : Game :=
  let ec := g.countEligible
  if ec < 2 then
    { g with street := .showdown, roundStarter := g.dealer,
             current := g.dealer, sbPos := none, bbPos := none }
  else
    let sbbb := g.determineBlindPositions ec
    let g1 := { g with sbPos := some sbbb.1, bbPos := some sbbb.2 }
    let r := g1.postBlinds sbbb.1 sbbb.2
    let g2 := { r.2 with currentBet := r.1, minRaise := r.1 }
    let cur := g2.determineFirstActor sbbb.2 ec
    { g2 with current := cur, roundStarter := cur }

/-- `Game::new_hand`, parametrised by the shuffled deck for the hand. -/
def Game.newHand (g : Game) (shuffled : List Card) : Game :=
  let g1 := g.advanceDealer
  let g2 := g1.resetHandState shuffled
  let g3 := g2.resetPlayersForNewHand
  let g4 := g3.alignDealerToEligible
  let cats : List (Option Category) := List.replicate g4.players.length none
  let g5 := { g4 with winners := [], showdownCategories := cats }
  let g6 := g5.dealHoleCards
  g6.setupPreflop

/-! ### Generic list helpers -/

/-- Updating index `i` changes a mapped sum by swapping the old entry's
contribution for the new one's. -/
theorem sum_map_set {α : Type} (f : α → Nat) (l : List α) (i : Nat) (x : α)
    (d : α) (h : i < l.length) :
    ((l.set i x).map f).sum + f (l.getD i d) = (l.map f).sum + f x := by
  induction l generalizing i with
  | nil => simp at h
  | cons hd tl ih =>
    cases i with
    | zero => simp [List.set]; omega
    | succ n =>
      have hn : n < tl.length := by simpa using h
      have := ih n hn
      simp only [List.set, List.map_cons, List.sum_cons, List.getD, List.get?]
      simp only [List.getD] at this
      omega

/-- Out-of-bounds `set` leaves the list unchanged. -/
theorem set_oob {α : Type} (l : List α) (i : Nat) (x : α)
    (h : l.length ≤ i) : l.set i x = l := by
  induction l generalizing i with
  | nil => rfl
  | cons hd tl ih =>
    cases i with
    | zero => simp at h
    | succ n => simp [List.set, ih n (by simpa using h)]

/-- A `foldl` preserves any invariant its step preserves. -/
theorem foldl_invariant {α β : Type} (f : β → α → β) (P : β → Prop)
    (l : List α) (b : β) (hb : P b) (hf : ∀ b a, P b → P (f b a)) :
    P (l.foldl f b) := by
  induction l generalizing b with
  | nil => exact hb
  | cons hd tl ih => exact ih (f b hd) (hf b hd hb)

/-- `insertLe` inserts an element, up to permutation. -/
theorem insertLe_perm {α : Type} (le : α → α → Bool) (x : α) (l : List α) :
    List.Perm (insertLe le x l) (x :: l) := by
  induction l with
  | nil => exact List.Perm.refl _
  | cons y t ih =>
    by_cases h : le x y = true
    · simp [insertLe, h]
    · simp only [insertLe, h, if_false]
      exact ((ih.cons y).trans (List.Perm.swap x y t))

/-- `sortByLe` permutes its input. -/
theorem sortByLe_perm {α : Type} (le : α → α → Bool) (l : List α) :
    List.Perm (sortByLe le l) l := by
  induction l with
  | nil => exact List.Perm.refl _
  | cons x t ih => exact (insertLe_perm le x (sortByLe le t)).trans (ih.cons x)

/-- `dedupConsec` preserves membership. -/
theorem mem_dedupConsec {a : Nat} : ∀ {l : List Nat},
    a ∈ dedupConsec l ↔ a ∈ l := by
  intro l
  induction l with
  | nil => simp [dedupConsec]
  | cons x t ih =>
    cases t with
    | nil => simp [dedupConsec]
    | cons y u =>
      by_cases h : x = y
      · subst h
        have hd : dedupConsec (x :: x :: u) = dedupConsec (x :: u) := by
          simp [dedupConsec]
        rw [hd, ih]
        simp only [List.mem_cons]
        tauto
      · simp only [dedupConsec, if_neg h, List.mem_cons]
        rw [ih]
        simp only [List.mem_cons]

/-- The head of `dedupConsec` is the head of the input. -/
theorem dedupConsec_head : ∀ (x : Nat) (l : List Nat),
    ∃ t, dedupConsec (x :: l) = x :: t := by
  intro x l
  induction l generalizing x with
  | nil => exact ⟨[], rfl⟩
  | cons y u ih =>
    by_cases h : x = y
    · subst h
      simpa [dedupConsec] using ih x
    · exact ⟨dedupConsec (y :: u), by simp [dedupConsec, h]⟩

/-- On a `≤`-sorted list, `dedupConsec` produces a strictly increasing
chain. -/
theorem dedupConsec_chain : ∀ {l : List Nat}, List.Sorted (· ≤ ·) l →
    List.Chain' (· < ·) (dedupConsec l) := by
  intro l
  induction l with
  | nil => intro _; simp [dedupConsec]
  | cons x t ih =>
    intro hs
    have hst : List.Sorted (· ≤ ·) t := hs.of_cons
    cases t with
    | nil => simp [dedupConsec]
    | cons y u =>
      by_cases h : x = y
      · subst h
        simpa [dedupConsec] using ih hst
      · have hxy : x ≤ y := (List.sorted_cons.mp hs).1 y (List.mem_cons_self y u)
        have hlt : x < y := lt_of_le_of_ne hxy h
        simp only [dedupConsec, if_neg h]
        obtain ⟨t2, ht2⟩ := dedupConsec_head y u
        rw [ht2]
        have hch := ih hst
        rw [ht2] at hch
        exact List.Chain'.cons hlt hch

/-! ### C10: to_call totality and showdown safety -/

/-- C10: `to_call(i)` is total and showdown-safe — it is 0 whenever the
street is Showdown, and otherwise equals `current_bet - bet(i)` when
`bet(i) ≤ current_bet` and 0 otherwise (the subtraction saturates and never
underflows). -/
theorem toCall_total_showdown_safe (g : Game) (i : Nat)
    (hi : i < g.players.length) :
    (g.street = .showdown → g.toCall i = 0) ∧
    (g.street ≠ .showdown →
      g.toCall i =
        if (g.player i).bet ≤ g.currentBet
        then g.currentBet - (g.player i).bet
        else 0) := by
  constructor
  · intro hs
    simp [Game.toCall, hs]
  · intro hs
    simp only [Game.toCall, if_neg hs]
    by_cases hb : (g.player i).bet ≤ g.currentBet
    · rw [if_pos hb]
    · rw [if_neg hb]
      omega

/-- Witness for C10 at a concrete game and seat. -/
theorem toCall_total_showdown_safe_witness :
    (Game.new 2 100 5 10).toCall 0 =
      if ((Game.new 2 100 5 10).player 0).bet ≤ (Game.new 2 100 5 10).currentBet
      then (Game.new 2 100 5 10).currentBet - ((Game.new 2 100 5 10).player 0).bet
      else 0 :=
  (toCall_total_showdown_safe (Game.new 2 100 5 10) 0 (by decide)).2 (by decide)

/-! ### C3: full versus short raise -/

/-- C3: after a bet or raise lifting the actor's round bet to `new_bet`
(with `raise_amt = new_bet − current_bet`), a full raise
(`raise_amt ≥ min_raise`) sets `min_raise := max min_raise raise_amt`,
`last_raiser := actor` and `round_starter := actor`, while a short all-in
raise (`raise_amt < min_raise`) leaves all three unchanged; in both cases
`current_bet` becomes `new_bet` and nothing else in the state changes. -/
theorem updateRaiseState_full_vs_short (g : Game) (actor newBet : Nat)
    (h : g.currentBet < newBet) :
    (g.minRaise ≤ newBet - g.currentBet →
      g.updateRaiseState actor newBet =
        { g with minRaise := max g.minRaise (newBet - g.currentBet),
                 lastRaiser := some actor, roundStarter := actor,
                 currentBet := newBet }) ∧
    (newBet - g.currentBet < g.minRaise →
      g.updateRaiseState actor newBet = { g with currentBet := newBet }) := by
  constructor
  · intro hfull
    simp only [Game.updateRaiseState, if_pos h, if_pos hfull]
  · intro hshort
    simp only [Game.updateRaiseState, if_pos h, if_neg (by omega : ¬ g.minRaise ≤ newBet - g.currentBet)]

/-- Witness for C3: a full min-raise from 10 to 20 at a concrete state. -/
theorem updateRaiseState_full_vs_short_witness :
    { Game.new 2 100 5 10 with currentBet := 10 }.updateRaiseState 0 20 =
      { Game.new 2 100 5 10 with minRaise := 10, lastRaiser := some 0,
                                 roundStarter := 0, currentBet := 20 } :=
  ((updateRaiseState_full_vs_short
      { Game.new 2 100 5 10 with currentBet := 10 } 0 20 (by decide)).1
    (by decide)).trans (by decide)

/-! ### C7: action-error atomicity -/

/-- `place_to_amount` either succeeds or returns its input state. -/
theorem placeToAmount_shape (g : Game) (t : Nat) (v : HandHistoryVerb) :
    (g.placeToAmount t v).1 = .ok () ∨ (g.placeToAmount t v).2 = g := by
  unfold Game.placeToAmount
  by_cases hc : t ≤ (g.player g.current).bet
  · right; simp only [if_pos hc]
  · left; simp only [if_neg hc]

/-- `action_fold` either succeeds or returns its input state. -/
theorem actionFold_shape (g : Game) :
    (g.actionFold).1 = .ok () ∨ (g.actionFold).2 = g := by
  unfold Game.actionFold
  cases hE : g.ensureCanAct with
  | some e2 => right; rfl
  | none =>
    left
    split
    · rename_i heq; cases heq
    · dsimp only
      split <;> rfl

/-- `action_check_call` either succeeds or returns its input state. -/
theorem actionCheckCall_shape (g : Game) :
    (g.actionCheckCall).1 = .ok () ∨ (g.actionCheckCall).2 = g := by
  unfold Game.actionCheckCall
  cases hE : g.ensureCanAct with
  | some e2 => right; rfl
  | none =>
    left
    split
    · rename_i heq; cases heq
    · dsimp only
      split <;> rfl

/-- `action_bet_min` either succeeds or returns its input state. -/
theorem actionBetMin_shape (g : Game) :
    (g.actionBetMin).1 = .ok () ∨ (g.actionBetMin).2 = g := by
  unfold Game.actionBetMin
  cases hE : g.ensureCanAct with
  | some e2 => right; rfl
  | none =>
    split
    · rename_i heq; cases heq
    · by_cases h1 : 0 < g.currentBet
      · right; simp only [if_pos h1]
      · simp only [if_neg h1]
        exact placeToAmount_shape g (max g.bigBlind 1) .bet

/-- `action_bet` either succeeds or returns its input state. -/
theorem actionBet_shape (g : Game) (amount : Nat) :
    (g.actionBet amount).1 = .ok () ∨ (g.actionBet amount).2 = g := by
  unfold Game.actionBet
  cases hE : g.ensureCanAct with
  | some e2 => right; rfl
  | none =>
    split
    · rename_i heq; cases heq
    · by_cases h1 : 0 < g.currentBet
      · right; simp only [if_pos h1]
      · simp only [if_neg h1]
        by_cases h2 : amount < max g.bigBlind 1
        · right; simp only [if_pos h2]
        · simp only [if_neg h2]
          by_cases h3 : (g.player g.current).bet + (g.player g.current).stack < amount
          · right; simp only [if_pos h3]
          · simp only [if_neg h3]
            exact placeToAmount_shape g amount .bet

/-- `action_raise_min` either succeeds or returns its input state. -/
theorem actionRaiseMin_shape (g : Game) :
    (g.actionRaiseMin).1 = .ok () ∨ (g.actionRaiseMin).2 = g := by
  unfold Game.actionRaiseMin
  cases hE : g.ensureCanAct with
  | some e2 => right; rfl
  | none =>
    split
    · rename_i heq; cases heq
    · by_cases h1 : g.currentBet = 0
      · right; simp only [if_pos h1]
      · simp only [if_neg h1]
        exact placeToAmount_shape g (g.currentBet + g.minRaise) .raiseTo

/-- `action_raise_to` either succeeds or returns its input state. -/
theorem actionRaiseTo_shape (g : Game) (amount : Nat) :
    (g.actionRaiseTo amount).1 = .ok () ∨ (g.actionRaiseTo amount).2 = g := by
  unfold Game.actionRaiseTo
  cases hE : g.ensureCanAct with
  | some e2 => right; rfl
  | none =>
    split
    · rename_i heq; cases heq
    · by_cases h1 : g.currentBet = 0
      · right; simp only [if_pos h1]
      · simp only [if_neg h1]
        by_cases h2 : (g.player g.current).bet + (g.player g.current).stack < amount
        · right; simp only [if_pos h2]
        · simp only [if_neg h2]
          by_cases h3 : amount < g.currentBet + g.minRaise ∧
              amount < (g.player g.current).bet + (g.player g.current).stack
          · right; simp only [if_pos h3]
          · simp only [if_neg h3]
            exact placeToAmount_shape g amount .raiseTo

/-- A result cannot be an error when its first component is `ok`. -/
theorem shape_resolve {g g2 : Game} {r : Except ActionError Unit × Game}
    (hs : r.1 = .ok () ∨ r.2 = g2) {e : ActionError}
    (h : r.1 = .error e) (_hg : g2 = g) : r.2 = g2 := by
  rcases hs with hs | hs
  · rw [h] at hs; cases hs
  · exact hs

/-- C7: whenever any of the six action methods returns an `ActionError`,
the entire `Game` state — every player's stack, bet, contributed, status and
last action, plus pot, board, street, current, current_bet, min_raise,
round_starter and the hand history — is exactly as it was before the call. -/
theorem action_errors_leave_state_unchanged (g : Game) (amount : Nat) :
    (∀ e, (g.actionFold).1 = .error e → (g.actionFold).2 = g) ∧
    (∀ e, (g.actionCheckCall).1 = .error e → (g.actionCheckCall).2 = g) ∧
    (∀ e, (g.actionBetMin).1 = .error e → (g.actionBetMin).2 = g) ∧
    (∀ e, (g.actionBet amount).1 = .error e → (g.actionBet amount).2 = g) ∧
    (∀ e, (g.actionRaiseMin).1 = .error e → (g.actionRaiseMin).2 = g) ∧
    (∀ e, (g.actionRaiseTo amount).1 = .error e → (g.actionRaiseTo amount).2 = g) :=
  ⟨fun _ h => shape_resolve (actionFold_shape g) h rfl,
   fun _ h => shape_resolve (actionCheckCall_shape g) h rfl,
   fun _ h => shape_resolve (actionBetMin_shape g) h rfl,
   fun _ h => shape_resolve (actionBet_shape g amount) h rfl,
   fun _ h => shape_resolve (actionRaiseMin_shape g) h rfl,
   fun _ h => shape_resolve (actionRaiseTo_shape g amount) h rfl⟩

/-- Witness for C7: folding during showdown fails and leaves the concrete
state untouched. -/
theorem action_errors_leave_state_unchanged_witness :
    (({ Game.new 2 100 5 10 with street := .showdown }).actionFold).2 =
      { Game.new 2 100 5 10 with street := .showdown } :=
  (action_errors_leave_state_unchanged
    { Game.new 2 100 5 10 with street := .showdown } 0).1 .showdown rfl

/-! ### Indexing helpers and C4: raise_to validation order -/

/-- Reading back the seat just written. -/
theorem getD_set_self {α : Type} (l : List α) (i : Nat) (x d : α)
    (h : i < l.length) : (l.set i x).getD i d = x := by
  simp [List.getD]
  rw [List.getElem?_set_self']
  simp [List.getElem?_eq_getElem, h]

/-- Reading a seat other than the one written. -/
theorem getD_set_ne {α : Type} (l : List α) (i j : Nat) (x d : α)
    (h : i ≠ j) : (l.set i x).getD j d = l.getD j d := by
  simp [List.getD]
  rw [List.getElem?_set_ne h]

/-- An eligible seat index is in bounds (the out-of-bounds placeholder is
Folded). -/
theorem isEligible_lt_length (g : Game) (i : Nat)
    (h : g.isEligible i = true) : i < g.players.length := by
  by_contra hge
  push_neg at hge
  unfold Game.isEligible Game.player at h
  rw [List.getD_eq_default _ _ hge] at h
  cases h

/-- `player` after `setPlayer` at the same in-bounds seat. -/
theorem player_set_self (g : Game) (i : Nat) (p : Player)
    (h : i < g.players.length) : (g.setPlayer i p).player i = p := by
  unfold Game.setPlayer Game.player
  exact getD_set_self _ _ _ _ h

/-- `ensure_can_act` passes when the street is not Showdown and the current
seat is Active. -/
theorem ensureCanAct_none (g : Game) (hs : g.street ≠ .showdown)
    (hel : g.isEligible g.current = true) : g.ensureCanAct = none := by
  unfold Game.ensureCanAct
  rw [if_neg hs, if_neg (by simp [hel])]

/-- The bet recorded by `pay_amount`: the old bet plus the amount actually
paid. -/
theorem payAmount_bet (g : Game) (i amt : Nat) (hlt : i < g.players.length) :
    ((g.payAmount i amt).2.player i).bet
      = (g.player i).bet + min (g.player i).stack amt := by
  unfold Game.payAmount
  simp only [Game.setPlayer, Game.player]
  rw [getD_set_self _ _ _ _ hlt]
  split <;> rfl

/-- C4 (amended): `action_raise_to(amount)`, when the street is not Showdown
and the current seat is Active, checks in this order: RaiseNotAllowed when
`current_bet = 0`; AmountTooLarge when `amount > my_bet + stack`;
AmountTooSmall when `amount < current_bet + min_raise` unless `amount`
equals `my_bet + stack` (all-in for less); TargetTooLow only when the
preceding checks pass and `amount ≤ my_bet`; otherwise it succeeds and the
payment places the seat's round bet exactly at `amount`.  (The original
claim's "TargetTooLow whenever amount ≤ my_bet" ignores that AmountTooSmall
is checked first.) -/
theorem actionRaiseTo_cases (g : Game) (amount : Nat)
    (hs : g.street ≠ .showdown) (hel : g.isEligible g.current = true) :
    (g.currentBet = 0 →
      g.actionRaiseTo amount = (.error .raiseNotAllowed, g)) ∧
    (g.currentBet ≠ 0 →
      (g.player g.current).bet + (g.player g.current).stack < amount →
      g.actionRaiseTo amount =
        (.error (.amountTooLarge
          ((g.player g.current).bet + (g.player g.current).stack) amount), g)) ∧
    (g.currentBet ≠ 0 →
      amount < g.currentBet + g.minRaise →
      amount < (g.player g.current).bet + (g.player g.current).stack →
      g.actionRaiseTo amount =
        (.error (.amountTooSmall (g.currentBet + g.minRaise) amount), g)) ∧
    (g.currentBet ≠ 0 →
      amount ≤ (g.player g.current).bet + (g.player g.current).stack →
      (g.currentBet + g.minRaise ≤ amount ∨
        amount = (g.player g.current).bet + (g.player g.current).stack) →
      amount ≤ (g.player g.current).bet →
      g.actionRaiseTo amount =
        (.error (.targetTooLow (g.player g.current).bet amount), g)) ∧
    (g.currentBet ≠ 0 →
      amount ≤ (g.player g.current).bet + (g.player g.current).stack →
      (g.currentBet + g.minRaise ≤ amount ∨
        amount = (g.player g.current).bet + (g.player g.current).stack) →
      (g.player g.current).bet < amount →
      (g.actionRaiseTo amount).1 = .ok () ∧
      ((g.payAmount g.current
          (amount - (g.player g.current).bet)).2.player g.current).bet
        = amount) := by
  have hE := ensureCanAct_none g hs hel
  have hlt := isEligible_lt_length g g.current hel
  refine ⟨?_, ?_, ?_, ?_, ?_⟩
  · intro h0
    simp only [Game.actionRaiseTo, hE, if_pos h0]
  · intro h0 hbig
    simp only [Game.actionRaiseTo, hE, if_neg h0, if_pos hbig]
  · intro h0 hsmall hless
    have hnb : ¬ ((g.player g.current).bet + (g.player g.current).stack < amount) := by omega
    simp only [Game.actionRaiseTo, hE, if_neg h0, if_neg hnb,
      if_pos (And.intro hsmall hless)]
  · intro h0 hle hor htl
    have hnb : ¬ ((g.player g.current).bet + (g.player g.current).stack < amount) := by omega
    have hns : ¬ (amount < g.currentBet + g.minRaise ∧
        amount < (g.player g.current).bet + (g.player g.current).stack) := by omega
    simp only [Game.actionRaiseTo, hE, if_neg h0, if_neg hnb, if_neg hns,
      Game.placeToAmount, if_pos htl]
  · intro h0 hle hor hgt
    have hnb : ¬ ((g.player g.current).bet + (g.player g.current).stack < amount) := by omega
    have hns : ¬ (amount < g.currentBet + g.minRaise ∧
        amount < (g.player g.current).bet + (g.player g.current).stack) := by omega
    have hntl : ¬ (amount ≤ (g.player g.current).bet) := by omega
    constructor
    · simp only [Game.actionRaiseTo, hE, if_neg h0, if_neg hnb, if_neg hns,
        Game.placeToAmount, if_neg hntl]
    · have hpaid : min (g.player g.current).stack (amount - (g.player g.current).bet)
          = amount - (g.player g.current).bet := by omega
      rw [payAmount_bet g g.current (amount - (g.player g.current).bet) hlt, hpaid]
      omega

/-- A concrete preflop state: seat 0 to act, both seats have bet 10
(current_bet 10, min_raise 10), seat 0 has 100 behind. -/
def raiseFixture : Game :=
  { Game.new 2 1000 5 10 with
    current := 0, currentBet := 10, minRaise := 10,
    players := [⟨100, 10, 10, .active, none, none⟩,
                ⟨90, 10, 10, .active, none, none⟩] }

/-- Witness for C4: a legal raise to 20 on `raiseFixture` succeeds and puts
the seat's round bet at 20. -/
theorem actionRaiseTo_cases_witness :
    (raiseFixture.actionRaiseTo 20).1 = .ok () ∧
    ((raiseFixture.payAmount raiseFixture.current
        (20 - (raiseFixture.player raiseFixture.current).bet)).2.player
        raiseFixture.current).bet = 20 :=
  (actionRaiseTo_cases raiseFixture 20 (by decide) (by decide)).2.2.2.2
    (by decide) (by decide) (Or.inl (by decide)) (by decide)

/-- Counterexample for C4 as stated: on `raiseFixture`, `amount = 5` is at
most the seat's round bet of 10, yet `action_raise_to` returns
AmountTooSmall (min 20), not TargetTooLow. -/
theorem actionRaiseTo_not_targetTooLow :
    (raiseFixture.actionRaiseTo 5).1 = .error (.amountTooSmall 20 5) ∧
    5 ≤ (raiseFixture.player raiseFixture.current).bet ∧
    raiseFixture.currentBet = 10 ∧ raiseFixture.minRaise = 10 :=
  ⟨rfl, by decide, rfl, rfl⟩

/-! ### C8: bet_min versus bet -/

/-- C8 (amended): `action_bet_min()` agrees with `action_bet(max(bb, 1))`
whenever the current seat's `bet + stack` covers the target; when it does
not, the two differ — `action_bet` fails with AmountTooLarge while
`action_bet_min` skips that check and succeeds as an all-in for less. -/
theorem actionBetMin_vs_actionBet (g : Game) :
    (max g.bigBlind 1 ≤ (g.player g.current).bet + (g.player g.current).stack →
      g.actionBetMin = g.actionBet (max g.bigBlind 1)) ∧
    (g.ensureCanAct = none → g.currentBet = 0 →
      (g.player g.current).bet + (g.player g.current).stack < max g.bigBlind 1 →
      g.actionBet (max g.bigBlind 1) =
        (.error (.amountTooLarge
          ((g.player g.current).bet + (g.player g.current).stack)
          (max g.bigBlind 1)), g) ∧
      (g.actionBetMin).1 = .ok ()) := by
  constructor
  · intro hcov
    unfold Game.actionBetMin Game.actionBet
    cases hE : g.ensureCanAct with
    | some e => rfl
    | none =>
      by_cases h1 : 0 < g.currentBet
      · simp only [if_pos h1]
      · simp only [if_neg h1]
        rw [if_neg (by omega : ¬ max g.bigBlind 1 < max g.bigBlind 1),
            if_neg (by omega : ¬ (g.player g.current).bet + (g.player g.current).stack < max g.bigBlind 1)]
  · intro hE h0 hshort
    constructor
    · unfold Game.actionBet
      rw [hE]
      simp only [if_neg (by omega : ¬ 0 < g.currentBet),
        if_neg (by omega : ¬ max g.bigBlind 1 < max g.bigBlind 1), if_pos hshort]
    · unfold Game.actionBetMin
      rw [hE]
      simp only [if_neg (by omega : ¬ 0 < g.currentBet), Game.placeToAmount,
        if_neg (by omega : ¬ max g.bigBlind 1 ≤ (g.player g.current).bet)]

/-- A concrete flop state where the current seat's stack (5) cannot cover
the minimum bet target of max(big_blind, 1) = 10. -/
def betMinFixture : Game :=
  { Game.new 2 1000 5 10 with
    street := .flop, current := 0, currentBet := 0,
    players := [⟨5, 0, 20, .active, some ⟨⟨.ace, .spades⟩, ⟨.ace, .hearts⟩⟩, none⟩,
                ⟨50, 0, 20, .active, some ⟨⟨.king, .spades⟩, ⟨.king, .hearts⟩⟩, none⟩] }

/-- Witness for C8 (amended): on `betMinFixture` (stack 5 below the target
10) `action_bet(10)` fails AmountTooLarge while `action_bet_min` succeeds. -/
theorem actionBetMin_vs_actionBet_witness :
    betMinFixture.actionBet (max betMinFixture.bigBlind 1) =
      (.error (.amountTooLarge
        ((betMinFixture.player betMinFixture.current).bet +
          (betMinFixture.player betMinFixture.current).stack)
        (max betMinFixture.bigBlind 1)), betMinFixture) ∧
    (betMinFixture.actionBetMin).1 = .ok () :=
  (actionBetMin_vs_actionBet betMinFixture).2 rfl rfl (by decide)

/-- Counterexample for C8 as stated: on `betMinFixture`, `action_bet_min`
succeeds (posting the 5-chip all-in) while `action_bet(max(big_blind,1))`
returns AmountTooLarge, so the two are not equivalent when
`bet + stack < max(big_blind, 1)`. -/
theorem actionBetMin_not_actionBet :
    (betMinFixture.actionBetMin).1 = .ok () ∧
    (betMinFixture.actionBet 10).1 = .error (.amountTooLarge 5 10) ∧
    max betMinFixture.bigBlind 1 = 10 ∧
    ((betMinFixture.actionBetMin).2.player 0).bet = 5 :=
  ⟨rfl, rfl, rfl, by decide⟩

/-! ### Frame lemmas for the showdown pipeline -/

/-- The state carried by a `SimpleOutcome`. -/
def SimpleOutcome.game : SimpleOutcome → Game
  | .handled g => g
  | .notHandled g => g

/-- `complete_board` only draws onto the board. -/
theorem completeBoardGo_frame : ∀ (fuel : Nat) (g : Game),
    (Game.completeBoardGo fuel g).street = g.street ∧
    (Game.completeBoardGo fuel g).players = g.players ∧
    (Game.completeBoardGo fuel g).pot = g.pot := by
  intro fuel
  induction fuel with
  | zero => intro g; exact ⟨rfl, rfl, rfl⟩
  | succ n ih =>
    intro g
    unfold Game.completeBoardGo
    by_cases hb : g.board.length < 5
    · rw [if_pos hb]
      cases hd : g.deck with
      | nil => exact ⟨rfl, rfl, rfl⟩
      | cons c rest => exact ih _
    · rw [if_neg hb]
      exact ⟨rfl, rfl, rfl⟩

/-- `award_pot_to_single_winner` does not change the street. -/
theorem awardPot_street (g : Game) (i : Nat) (c : Option Category) :
    (g.awardPotToSingleWinner i c).street = g.street := by
  unfold Game.awardPotToSingleWinner
  cases c with
  | none => rfl
  | some cat =>
    dsimp only
    split <;> rfl

/-- `handle_simple_showdown` does not change the street. -/
theorem handleSimpleShowdown_street (g : Game) (c : List Nat) :
    ((g.handleSimpleShowdown c).game).street = g.street := by
  unfold Game.handleSimpleShowdown
  dsimp only
  split
  · simp only [SimpleOutcome.game, awardPot_street]
  · simp only [SimpleOutcome.game, awardPot_street]
  · split
    · split
      · simp only [SimpleOutcome.game]
        exact (completeBoardGo_frame 5 _).1
      · simp only [SimpleOutcome.game, awardPot_street]
        exact (completeBoardGo_frame 5 _).1
    · simp only [SimpleOutcome.game]

/-- `evaluate_all_hands` only records categories. -/
theorem evaluateAllHandsGo_frame : ∀ (c : List Nat)
    (evals : List (Option Evaluation)) (g : Game),
    ((Game.evaluateAllHandsGo evals c g).2).street = g.street ∧
    ((Game.evaluateAllHandsGo evals c g).2).players = g.players ∧
    ((Game.evaluateAllHandsGo evals c g).2).pot = g.pot ∧
    ((Game.evaluateAllHandsGo evals c g).2).board = g.board ∧
    ((Game.evaluateAllHandsGo evals c g).2).dealer = g.dealer ∧
    ((Game.evaluateAllHandsGo evals c g).2).bigBlind = g.bigBlind ∧
    ((Game.evaluateAllHandsGo evals c g).2).current = g.current := by
  intro c
  induction c with
  | nil =>
    intro evals g
    exact ⟨rfl, rfl, rfl, rfl, rfl, rfl, rfl⟩
  | cons i rest ih =>
    intro evals g
    unfold Game.evaluateAllHandsGo
    cases hh : (g.player i).hole with
    | none => exact ⟨rfl, rfl, rfl, rfl, rfl, rfl, rfl⟩
    | some h =>
      dsimp only
      cases he : evaluateHoldem h g.board with
      | error e => exact ⟨rfl, rfl, rfl, rfl, rfl, rfl, rfl⟩
      | ok ev =>
        dsimp only
        by_cases hi : i < g.showdownCategories.length
        · rw [if_pos hi]
          exact ih _ _
        · rw [if_neg hi]
          exact ih _ _

/-- `finalize_showdown` does not change the street. -/
theorem finalizeShowdown_street (g : Game) (w : List Nat) (s : List Bool) :
    (g.finalizeShowdown w s).street = g.street := by
  unfold Game.finalizeShowdown
  dsimp only
  refine foldl_invariant _ (fun x => x.street = g.street) _ g rfl ?_
  intro b a hb
  dsimp only
  split
  · exact hb
  · exact hb

/-- Frame of `evaluate_all_hands` at the wrapper level. -/
theorem evaluateAllHands_frame (g : Game) (c : List Nat) :
    ((g.evaluateAllHands c).2).street = g.street ∧
    ((g.evaluateAllHands c).2).players = g.players ∧
    ((g.evaluateAllHands c).2).pot = g.pot ∧
    ((g.evaluateAllHands c).2).board = g.board ∧
    ((g.evaluateAllHands c).2).dealer = g.dealer ∧
    ((g.evaluateAllHands c).2).bigBlind = g.bigBlind ∧
    ((g.evaluateAllHands c).2).current = g.current := by
  unfold Game.evaluateAllHands
  exact evaluateAllHandsGo_frame c _ g

/-- `finish_showdown` never changes the street. -/
theorem finishShowdown_street (g : Game) :
    ((Game.finishShowdown g).2).street = g.street := by
  unfold Game.finishShowdown
  unfold Game.syncPotWithContributions
  by_cases h0 : contribSum g = 0
  · rw [if_pos h0]
  · rw [if_neg h0]
    dsimp only
    cases hH : Game.handleSimpleShowdown { g with pot := contribSum g }
        (Game.contenders { g with pot := contribSum g }) with
    | handled g2 =>
      have hs := handleSimpleShowdown_street { g with pot := contribSum g }
        (Game.contenders { g with pot := contribSum g })
      rw [hH] at hs
      exact hs
    | notHandled g2 =>
      have hg2 := handleSimpleShowdown_street { g with pot := contribSum g }
        (Game.contenders { g with pot := contribSum g })
      rw [hH] at hg2
      dsimp only [SimpleOutcome.game] at hg2
      dsimp only
      split
      · rename_i e g3 heq
        have h3 := congrArg (fun p => (p.2).street) heq
        dsimp only at h3
        rw [← h3]
        exact ((evaluateAllHands_frame g2 _).1).trans hg2
      · rename_i evals g3 heq
        have h3 := congrArg (fun p => (p.2).street) heq
        dsimp only at h3
        split
        · rw [← h3]
          exact ((evaluateAllHands_frame g2 _).1).trans hg2
        · rw [finalizeShowdown_street, ← h3]
          exact ((evaluateAllHands_frame g2 _).1).trans hg2

/-- `complete_board` reaches exactly five cards when the deck suffices. -/
theorem completeBoardGo_len : ∀ (fuel : Nat) (g : Game),
    g.board.length ≤ 5 → 5 ≤ g.board.length + g.deck.length →
    5 ≤ g.board.length + fuel →
    (Game.completeBoardGo fuel g).board.length = 5 := by
  intro fuel
  induction fuel with
  | zero =>
    intro g h1 h2 h3
    unfold Game.completeBoardGo
    omega
  | succ n ih =>
    intro g h1 h2 h3
    unfold Game.completeBoardGo
    by_cases hb : g.board.length < 5
    · rw [if_pos hb]
      cases hd : g.deck with
      | nil => rw [hd] at h2; simp at h2; omega
      | cons c rest =>
        apply ih
        · simp; omega
        · rw [hd] at h2; simp at h2 ⊢; omega
        · simp; omega
    · rw [if_neg hb]
      omega

/-- `award_pot_to_single_winner` does not change the board. -/
theorem awardPot_board (g : Game) (i : Nat) (c : Option Category) :
    (g.awardPotToSingleWinner i c).board = g.board := by
  unfold Game.awardPotToSingleWinner
  cases c with
  | none => rfl
  | some cat =>
    dsimp only
    split <;> rfl

/-- `handle_simple_showdown` keeps a full board unchanged. -/
theorem handleSimpleShowdown_board5 (g : Game) (c : List Nat)
    (h5 : g.board.length = 5) :
    ((g.handleSimpleShowdown c).game).board = g.board := by
  unfold Game.handleSimpleShowdown
  dsimp only
  split
  · simp only [SimpleOutcome.game, awardPot_board]
  · simp only [SimpleOutcome.game, awardPot_board]
  · split
    · rename_i hlt
      omega
    · rfl

/-- `finalize_showdown` does not change the board. -/
theorem finalizeShowdown_board (g : Game) (w : List Nat) (s : List Bool) :
    (g.finalizeShowdown w s).board = g.board := by
  unfold Game.finalizeShowdown
  dsimp only
  refine foldl_invariant _ (fun x => x.board = g.board) _ g rfl ?_
  intro b a hb
  dsimp only
  split
  · exact hb
  · exact hb

/-- `finish_showdown` keeps a full board unchanged. -/
theorem finishShowdown_board5 (g : Game) (h5 : g.board.length = 5) :
    ((Game.finishShowdown g).2).board = g.board := by
  unfold Game.finishShowdown
  unfold Game.syncPotWithContributions
  by_cases h0 : contribSum g = 0
  · rw [if_pos h0]
  · rw [if_neg h0]
    dsimp only
    cases hH : Game.handleSimpleShowdown { g with pot := contribSum g }
        (Game.contenders { g with pot := contribSum g }) with
    | handled g2 =>
      have hs := handleSimpleShowdown_board5 { g with pot := contribSum g }
        (Game.contenders { g with pot := contribSum g }) h5
      rw [hH] at hs
      exact hs
    | notHandled g2 =>
      have hg2 := handleSimpleShowdown_board5 { g with pot := contribSum g }
        (Game.contenders { g with pot := contribSum g }) h5
      rw [hH] at hg2
      dsimp only [SimpleOutcome.game] at hg2
      dsimp only
      split
      · rename_i e g3 heq
        have h3 := congrArg (fun p => (p.2).board) heq
        dsimp only at h3
        rw [← h3]
        exact ((evaluateAllHands_frame g2 _).2.2.2.1).trans hg2
      · rename_i evals g3 heq
        have h3 := congrArg (fun p => (p.2).board) heq
        dsimp only at h3
        split
        · rw [← h3]
          exact ((evaluateAllHands_frame g2 _).2.2.2.1).trans hg2
        · rw [finalizeShowdown_board, ← h3]
          exact ((evaluateAllHands_frame g2 _).2.2.2.1).trans hg2

/-! ### C9: forced showdown -/

/-- C9 (amended): after the zero-Active check, `maybe_force_showdown` jumps
to showdown and (with more than one contender and a short board) deals the
remaining board cards; and the jump happens exactly when no Active seat
remains, or a single Active seat remains whose bet already matches
`current_bet` — not only in the zero-Active case the claim describes. -/
theorem maybeForceShowdown_characterization (g : Game) :
    (g.street ≠ .showdown → g.countEligible = 0 →
      1 < g.holeContendersCount → g.board.length < 5 →
      5 ≤ g.board.length + g.deck.length →
      (g.maybeForceShowdown).street = .showdown ∧
      (g.maybeForceShowdown).board.length = 5) ∧
    ((g.maybeForceShowdown).street = .showdown ↔
      g.street = .showdown ∨ g.countEligible = 0 ∨
        (g.countEligible = 1 ∧ g.singleActiveUnmatched = false)) := by
  constructor
  · intro hs h0 hc hb hd
    unfold Game.maybeForceShowdown
    rw [if_neg hs]
    dsimp only
    rw [if_neg (by omega : ¬ 1 < g.countEligible)]
    rw [if_neg (by simp [h0] : ¬ (g.countEligible == 1 && g.singleActiveUnmatched) = true)]
    rw [if_pos (And.intro hc hb)]
    have hlen : ((g.completeBoard).2).board.length = 5 := by
      unfold Game.completeBoard
      exact completeBoardGo_len 5 g (by omega) hd (by omega)
    constructor
    · rw [finishShowdown_street]
    · rw [finishShowdown_board5 _ (by exact hlen)]
      exact hlen
  · by_cases hs : g.street = .showdown
    · unfold Game.maybeForceShowdown
      rw [if_pos hs]
      simp [hs]
    · by_cases ha : 1 < g.countEligible
      · unfold Game.maybeForceShowdown
        rw [if_neg hs]
        dsimp only
        rw [if_pos ha]
        constructor
        · intro h; exact absurd h hs
        · intro h
          rcases h with h | h | h
          · exact absurd h hs
          · omega
          · omega
      · by_cases hu : (g.countEligible == 1 && g.singleActiveUnmatched) = true
        · unfold Game.maybeForceShowdown
          rw [if_neg hs]
          dsimp only
          rw [if_neg ha, if_pos hu]
          simp only [Bool.and_eq_true, beq_iff_eq] at hu
          constructor
          · intro h; exact absurd h hs
          · intro h
            rcases h with h | h | h
            · exact absurd h hs
            · omega
            · rw [h.2] at hu; cases hu.2
        · unfold Game.maybeForceShowdown
          rw [if_neg hs]
          dsimp only
          rw [if_neg ha, if_neg hu]
          constructor
          · intro _
            simp only [Bool.and_eq_true, beq_iff_eq] at hu
            right
            by_cases h1 : g.countEligible = 1
            · right
              refine ⟨h1, ?_⟩
              by_cases h2 : g.singleActiveUnmatched = true
              · exact absurd ⟨h1, h2⟩ hu
              · simpa using h2
            · left; omega
          · intro _
            split
            · rw [finishShowdown_street]
            · rw [finishShowdown_street]

/-- A flop state with a single Active seat (seat 0, bet matched at 0) and
two all-in contenders; checking forces an immediate showdown. -/
def forcedFixture : Game :=
  { Game.new 3 1000 5 10 with
    street := .flop, dealer := 0, current := 0, currentBet := 0,
    board := [⟨.two, .clubs⟩, ⟨.three, .diamonds⟩, ⟨.four, .hearts⟩],
    deck := [⟨.eight, .spades⟩, ⟨.king, .clubs⟩, ⟨.nine, .hearts⟩,
             ⟨.ten, .diamonds⟩],
    pot := 300,
    players := [
      ⟨700, 0, 100, .active, some ⟨⟨.queen, .spades⟩, ⟨.queen, .hearts⟩⟩, none⟩,
      ⟨0, 0, 100, .allIn, some ⟨⟨.ace, .spades⟩, ⟨.ace, .hearts⟩⟩, none⟩,
      ⟨0, 0, 100, .allIn, some ⟨⟨.seven, .clubs⟩, ⟨.six, .clubs⟩⟩, none⟩] }

/-- A state with zero Active seats: three all-in contenders preflop. -/
def allInFixture : Game :=
  { Game.new 3 1000 5 10 with
    street := .preflop, dealer := 0, current := 0, currentBet := 100,
    board := [],
    deck := [⟨.two, .clubs⟩, ⟨.three, .diamonds⟩, ⟨.four, .hearts⟩,
             ⟨.eight, .spades⟩, ⟨.king, .clubs⟩],
    pot := 300,
    players := [
      ⟨0, 100, 100, .allIn, some ⟨⟨.queen, .spades⟩, ⟨.queen, .hearts⟩⟩, none⟩,
      ⟨0, 100, 100, .allIn, some ⟨⟨.ace, .spades⟩, ⟨.ace, .hearts⟩⟩, none⟩,
      ⟨0, 100, 100, .allIn, some ⟨⟨.seven, .clubs⟩, ⟨.six, .clubs⟩⟩, none⟩] }

/-- Witness for C9 on `allInFixture`: zero Active seats, three contenders,
empty board — the forced showdown deals all five cards and resolves. -/
theorem maybeForceShowdown_characterization_witness :
    (allInFixture.maybeForceShowdown).street = .showdown ∧
    (allInFixture.maybeForceShowdown).board.length = 5 :=
  (maybeForceShowdown_characterization allInFixture).1
    (by decide) (by decide) (by decide) (by decide) (by decide)

/-- Counterexample for C9's "only under zero Active" part: on
`forcedFixture` a successful check leaves one Active seat, yet the street
jumps to Showdown with the board dealt out to five cards. -/
theorem forced_showdown_with_one_active :
    (forcedFixture.actionCheckCall).1 = .ok () ∧
    forcedFixture.countEligible = 1 ∧
    forcedFixture.street = .flop ∧
    ((forcedFixture.actionCheckCall).2).street = .showdown ∧
    ((forcedFixture.actionCheckCall).2).board.length = 5 :=
  ⟨rfl, by decide, rfl, by decide, by decide⟩

/-! ### C5: seven-card optimality -/

/-- Folding the maximum step over a suffix only improves the best value. -/
theorem foldl_evalStep_mono (cards : List Card) :
    ∀ (l : List (List Nat)) (a : Evaluation),
    ∃ b, l.foldl (evalSevenStep cards) (some a) = some b ∧ a.value ≤ b.value := by
  intro l
  induction l with
  | nil => intro a; exact ⟨a, rfl, le_refl _⟩
  | cons x t ih =>
    intro a
    simp only [List.foldl_cons]
    unfold evalSevenStep
    dsimp only
    by_cases hlt : a.value < (evaluateFive (selectCards cards x)).value
    · rw [if_pos hlt]
      obtain ⟨b, hb, hab⟩ := ih (evaluateFive (selectCards cards x))
      exact ⟨b, hb, le_trans (le_of_lt hlt) hab⟩
    · rw [if_neg hlt]
      exact ih a

/-- Every evaluated combination is dominated by the fold's result. -/
theorem foldl_evalStep_ge (cards : List Card) :
    ∀ (l : List (List Nat)) (acc : Option Evaluation) (idxs : List Nat),
    idxs ∈ l →
    ∃ b, l.foldl (evalSevenStep cards) acc = some b ∧
      (evaluateFive (selectCards cards idxs)).value ≤ b.value := by
  intro l
  induction l with
  | nil => intro acc idxs h; cases h
  | cons x t ih =>
    intro acc idxs h
    simp only [List.foldl_cons]
    rcases List.mem_cons.mp h with h | h
    · subst h
      cases acc with
      | none =>
        unfold evalSevenStep
        dsimp only
        exact foldl_evalStep_mono cards t _
      | some a =>
        unfold evalSevenStep
        dsimp only
        by_cases hlt : a.value < (evaluateFive (selectCards cards idxs)).value
        · rw [if_pos hlt]
          exact foldl_evalStep_mono cards t _
        · rw [if_neg hlt]
          obtain ⟨b, hb, hab⟩ := foldl_evalStep_mono cards t a
          exact ⟨b, hb, le_trans (by omega) hab⟩
    · exact ih _ idxs h

/-- The fold's result is one of the evaluated combinations (or the seed). -/
theorem foldl_evalStep_mem (cards : List Card) :
    ∀ (l : List (List Nat)) (acc : Option Evaluation) (b : Evaluation),
    l.foldl (evalSevenStep cards) acc = some b →
    acc = some b ∨ ∃ idxs ∈ l, b = evaluateFive (selectCards cards idxs) := by
  intro l
  induction l with
  | nil => intro acc b h; exact Or.inl h
  | cons x t ih =>
    intro acc b h
    simp only [List.foldl_cons] at h
    rcases ih _ b h with hacc | ⟨idxs, hm, hb⟩
    · unfold evalSevenStep at hacc
      cases acc with
      | none =>
        dsimp only at hacc
        right
        exact ⟨x, List.mem_cons_self x t, by
          injection hacc with h2; exact h2.symm⟩
      | some a =>
        dsimp only at hacc
        by_cases hlt : a.value < (evaluateFive (selectCards cards x)).value
        · rw [if_pos hlt] at hacc
          right
          exact ⟨x, List.mem_cons_self x t, by
            injection hacc with h2; exact h2.symm⟩
        · rw [if_neg hlt] at hacc
          exact Or.inl hacc
    · exact Or.inr ⟨idxs, List.mem_cons_of_mem x hm, hb⟩

/-- Every strictly increasing index 5-tuple below 7 appears in the
iterator's output. -/
theorem mem_combos7c5_of_sorted :
    ∀ (a b c d e : Fin 7), a < b → b < c → c < d → d < e →
    [a.val, b.val, c.val, d.val, e.val] ∈ combos7c5 := by decide

/-- C5: the `Combinations7Choose5` iterator yields exactly the 21
lexicographically ordered index subsets, each once; and for every 7-card
array, `evaluate_seven` dominates `evaluate_five` on every one of those
subsets (equivalently, every strictly increasing 5-subset of the indices)
and attains the maximum of the 21 evaluations. -/
theorem evaluateSeven_optimal :
    combos7c5 =
      [[0, 1, 2, 3, 4], [0, 1, 2, 3, 5], [0, 1, 2, 3, 6], [0, 1, 2, 4, 5],
       [0, 1, 2, 4, 6], [0, 1, 2, 5, 6], [0, 1, 3, 4, 5], [0, 1, 3, 4, 6],
       [0, 1, 3, 5, 6], [0, 1, 4, 5, 6], [0, 2, 3, 4, 5], [0, 2, 3, 4, 6],
       [0, 2, 3, 5, 6], [0, 2, 4, 5, 6], [0, 3, 4, 5, 6], [1, 2, 3, 4, 5],
       [1, 2, 3, 4, 6], [1, 2, 3, 5, 6], [1, 2, 4, 5, 6], [1, 3, 4, 5, 6],
       [2, 3, 4, 5, 6]] ∧
    combos7c5.Nodup ∧
    (∀ (cards : List Card), cards.length = 7 →
      (∀ idxs ∈ combos7c5,
        (evaluateFive (selectCards cards idxs)).value
          ≤ (evaluateSeven cards).value) ∧
      (∃ idxs ∈ combos7c5,
        (evaluateSeven cards).value
          = (evaluateFive (selectCards cards idxs)).value)) ∧
    (∀ (cards : List Card) (a b c d e : Fin 7), cards.length = 7 →
      a < b → b < c → c < d → d < e →
      (evaluateFive
        (selectCards cards [a.val, b.val, c.val, d.val, e.val])).value
        ≤ (evaluateSeven cards).value) := by
  have hmain : ∀ (cards : List Card),
      (∀ idxs ∈ combos7c5,
        (evaluateFive (selectCards cards idxs)).value
          ≤ (evaluateSeven cards).value) ∧
      (∃ idxs ∈ combos7c5,
        (evaluateSeven cards).value
          = (evaluateFive (selectCards cards idxs)).value) := by
    intro cards
    constructor
    · intro idxs hm
      obtain ⟨b, hb, hge⟩ := foldl_evalStep_ge cards combos7c5 none idxs hm
      unfold evaluateSeven
      rw [hb]
      exact hge
    · have h0 : [0, 1, 2, 3, 4] ∈ combos7c5 := by decide
      obtain ⟨b, hb, _⟩ := foldl_evalStep_ge cards combos7c5 none _ h0
      rcases foldl_evalStep_mem cards combos7c5 none b hb with hc | ⟨idxs, hm, hbe⟩
      · cases hc
      · refine ⟨idxs, hm, ?_⟩
        unfold evaluateSeven
        rw [hb, hbe]
  refine ⟨by decide, by decide, fun cards _ => hmain cards, ?_⟩
  intro cards a b c d e _ hab hbc hcd hde
  exact (hmain cards).1 _ (mem_combos7c5_of_sorted a b c d e hab hbc hcd hde)

/-- A concrete 7-card input for the evaluator. -/
def sevenFixture : List Card :=
  [⟨.ace, .hearts⟩, ⟨.king, .hearts⟩, ⟨.queen, .hearts⟩, ⟨.jack, .hearts⟩,
   ⟨.ten, .hearts⟩, ⟨.two, .clubs⟩, ⟨.three, .diamonds⟩]

/-- Witness for C5: on a concrete 7-card hand, the first 5-subset's value is
dominated by `evaluate_seven`. -/
theorem evaluateSeven_optimal_witness :
    (evaluateFive (selectCards sevenFixture [0, 1, 2, 3, 4])).value
      ≤ (evaluateSeven sevenFixture).value :=
  (evaluateSeven_optimal.2.2.1 sevenFixture rfl).1 [0, 1, 2, 3, 4] (by decide)

/-! ### C2: side-pot construction -/

/-- The seats whose hand-total contribution reaches `lvl` — the spec's
"players with contributed ≥ Li". -/
def Game.playersAtLeast (g : Game) (lvl : Nat) : List Nat :=
  (List.range g.players.length).filter
    (fun i => decide (lvl ≤ (g.player i).contributed))

/-- Side-pot construction as the spec words it: for each distinct positive
contribution level `Li` (ascending, with `L0 = 0`), a pot of size
`(Li − L(i−1)) × #(players with contributed ≥ Li)` whose members are those
contributors. -/
def sidePotsSpec (g : Game) : List (Nat × List Nat) :=
  ((g.contributionLevels).zip (0 :: g.contributionLevels)).map (fun p =>
    ((p.1 - p.2) * (g.playersAtLeast p.1).length, g.playersAtLeast p.1))

/-- The contribution levels are exactly the positive contribution totals. -/
theorem mem_contributionLevels (g : Game) (lvl : Nat) :
    lvl ∈ g.contributionLevels ↔
      lvl ∈ g.players.map (·.contributed) ∧ 0 < lvl := by
  unfold Game.contributionLevels
  rw [mem_dedupConsec, (List.perm_insertionSort _ _).mem_iff, List.mem_filter]
  simp only [decide_eq_true_eq]

/-- The contribution levels are strictly increasing. -/
theorem contributionLevels_chain (g : Game) :
    List.Chain' (· < ·) g.contributionLevels :=
  dedupConsec_chain (List.sorted_insertionSort _ _)

/-- A positive level's contributor filter agrees with the spec's
"contributed ≥ Li" filter. -/
theorem contributorIdxs_eq_playersAtLeast (g : Game) (lvl : Nat)
    (h : 0 < lvl) : g.contributorIdxs lvl = g.playersAtLeast lvl := by
  unfold Game.contributorIdxs Game.playersAtLeast
  apply List.filter_congr
  intro i _
  rw [decide_eq_decide]
  constructor
  · intro hx
    exact hx.1
  · intro hx
    exact ⟨hx, by omega⟩

/-- Each level in the list is some seat's contribution total. -/
theorem contributionLevels_attained (g : Game) (lvl : Nat)
    (h : lvl ∈ g.contributionLevels) :
    ∃ i, i < g.players.length ∧ (g.player i).contributed = lvl := by
  obtain ⟨hm, _⟩ := (mem_contributionLevels g lvl).mp h
  obtain ⟨p, hp, hpl⟩ := List.mem_map.mp hm
  obtain ⟨i, hi, hig⟩ := List.mem_iff_getElem.mp hp
  refine ⟨i, hi, ?_⟩
  unfold Game.player
  rw [List.getD_eq_getElem _ _ hi, hig]
  exact hpl

/-- The side-pot fold computed against the spec's per-level formula. -/
theorem sidePotsGo_spec (g : Game) : ∀ (L : List Nat) (prev : Nat),
    List.Chain' (· < ·) (prev :: L) →
    (∀ lvl ∈ L, ∃ i, i < g.players.length ∧ (g.player i).contributed = lvl) →
    (∀ lvl ∈ L, 0 < lvl) →
    g.sidePotsGo prev L = (L.zip (prev :: L)).map (fun p =>
      ((p.1 - p.2) * (g.playersAtLeast p.1).length, g.playersAtLeast p.1)) := by
  intro L
  induction L with
  | nil => intro prev _ _ _; rfl
  | cons lvl rest ih =>
    intro prev hchain hatt hpos
    have hprev : prev < lvl := (List.chain'_cons.mp hchain).1
    have hlpos : 0 < lvl := hpos lvl (List.mem_cons_self _ _)
    have hlen : 0 < (g.contributorIdxs lvl).length := by
      obtain ⟨i, hi, hci⟩ := hatt lvl (List.mem_cons_self _ _)
      apply List.length_pos.mpr
      intro hemp
      have hmem : i ∈ g.contributorIdxs lvl := by
        unfold Game.contributorIdxs
        rw [List.mem_filter]
        refine ⟨List.mem_range.mpr hi, ?_⟩
        simp only [decide_eq_true_eq]
        omega
      rw [hemp] at hmem
      cases hmem
    unfold Game.sidePotsGo
    dsimp only
    rw [if_pos (Nat.mul_pos (by omega) hlen)]
    rw [contributorIdxs_eq_playersAtLeast g lvl hlpos]
    rw [List.zip_cons_cons, List.map_cons]
    rw [ih lvl (List.chain'_cons.mp hchain).2
      (fun l hl => hatt l (List.mem_cons_of_mem _ hl))
      (fun l hl => hpos l (List.mem_cons_of_mem _ hl))]

/-- A concrete three-way all-in showdown: board 2c 3d 4h 8s Kc, holes QQ /
AA / 76c, contributions 100 / 50 / 200 (spec scenario 1). -/
def sidePotFixture : Game :=
  { Game.new 3 1000 5 10 with
    street := .showdown, dealer := 0,
    board := [⟨.two, .clubs⟩, ⟨.three, .diamonds⟩, ⟨.four, .hearts⟩,
              ⟨.eight, .spades⟩, ⟨.king, .clubs⟩],
    pot := 350,
    players := [
      ⟨0, 0, 100, .allIn, some ⟨⟨.queen, .spades⟩, ⟨.queen, .hearts⟩⟩, none⟩,
      ⟨0, 0, 50, .allIn, some ⟨⟨.ace, .spades⟩, ⟨.ace, .hearts⟩⟩, none⟩,
      ⟨0, 0, 200, .allIn, some ⟨⟨.seven, .clubs⟩, ⟨.six, .clubs⟩⟩, none⟩] }

/-- C2: the engine's side pots are exactly the spec's — one pot per distinct
positive contribution level `Li` (ascending, `L0 = 0`) of size
`(Li − L(i−1)) × #(contributed ≥ Li)` over exactly those contributors; the
eligible winners of a pot are the non-folded hole-card holders among its
contributors; and on scenario 1 (contributions [100, 50, 200], board
2c 3d 4h 8s Kc, holes QQ / AA / 76c) the AA seat gains 150, the QQ seat
gains 100 and the 76c seat gains 100. -/
theorem calculateSidePots_spec (g : Game) :
    g.calculateSidePots = sidePotsSpec g ∧
    (∀ contributors i, i ∈ g.eligibleOf contributors ↔
      i ∈ contributors ∧ ¬ (g.player i).status = .folded ∧
        (g.player i).hole.isSome) ∧
    ((sidePotFixture.finishShowdown).2.players.map (·.stack)
        = [100, 150, 100] ∧
      (sidePotFixture.finishShowdown).2.pot = 0 ∧
      sidePotFixture.calculateSidePots =
        [(150, [0, 1, 2]), (100, [0, 2]), (100, [2])]) := by
  refine ⟨?_, ?_, by decide, by decide, by decide⟩
  case refine_2 =>
    intro contributors i
    unfold Game.eligibleOf
    rw [List.mem_filter]
    simp only [decide_eq_true_eq]
  · unfold Game.calculateSidePots sidePotsSpec
    apply sidePotsGo_spec
    · cases hL : g.contributionLevels with
      | nil => simp
      | cons a t =>
        rw [List.chain'_cons]
        constructor
        · have := (mem_contributionLevels g a).mp (by rw [hL]; exact List.mem_cons_self _ _)
          omega
        · have := contributionLevels_chain g
          rw [hL] at this
          exact this
    · intro lvl hl
      exact contributionLevels_attained g lvl hl
    · intro lvl hl
      exact ((mem_contributionLevels g lvl).mp hl).2

/-! ### C6: odd-chip distribution -/

/-- `distribute_pot` hands out one entry per winner. -/
theorem distributePotGo_length (per : Nat) (s : Bool) :
    ∀ (ws : List Nat) (rem : Nat),
    (distributePotGo per s ws rem).length = ws.length := by
  intro ws
  induction ws with
  | nil => intro rem; rfl
  | cons w t ih =>
    intro rem
    unfold distributePotGo
    by_cases hr : 0 < rem
    · rw [if_pos hr]
      simp [ih]
    · rw [if_neg hr]
      simp [ih]

/-- The `j`-th winner in a distribution receives the floor share plus one
extra chip exactly when `j` is below the remainder. -/
theorem distributePotGo_getD (per : Nat) (s : Bool) :
    ∀ (ws : List Nat) (rem j : Nat), j < ws.length →
    (distributePotGo per s ws rem).getD j (0, 0, false) =
      (ws.getD j 0, per + (if j < rem then 1 else 0), s) := by
  intro ws
  induction ws with
  | nil => intro rem j hj; cases hj
  | cons w t ih =>
    intro rem j hj
    unfold distributePotGo
    by_cases hr : 0 < rem
    · rw [if_pos hr]
      cases j with
      | zero => simp [List.getD, hr]
      | succ k =>
        have hk : k < t.length := by simp [List.length_cons] at hj; omega
        simp only [List.getD_cons_succ]
        rw [ih (rem - 1) k hk]
        by_cases hkr : k + 1 < rem
        · rw [if_pos (by omega : k < rem - 1), if_pos hkr]
        · rw [if_neg (by omega : ¬ k < rem - 1), if_neg hkr]
    · rw [if_neg hr]
      cases j with
      | zero => simp [List.getD]; omega
      | succ k =>
        have hk : k < t.length := by simp [List.length_cons] at hj; omega
        simp only [List.getD_cons_succ]
        rw [ih 0 k hk]
        rw [if_neg (by omega : ¬ k < 0), if_neg (by omega : ¬ k + 1 < rem)]

/-- Total paid out by one distribution: the floor shares plus the
remainder. -/
theorem distributePotGo_sum (per : Nat) (s : Bool) :
    ∀ (ws : List Nat) (rem : Nat),
    ((distributePotGo per s ws rem).map (fun e => e.2.1)).sum
      = per * ws.length + min rem ws.length := by
  intro ws
  induction ws with
  | nil => intro rem; simp [distributePotGo]
  | cons w t ih =>
    intro rem
    unfold distributePotGo
    by_cases hr : 0 < rem
    · rw [if_pos hr]
      simp only [List.map_cons, List.sum_cons, ih, List.length_cons, Nat.mul_succ]
      omega
    · rw [if_neg hr]
      simp only [List.map_cons, List.sum_cons, ih, List.length_cons, Nat.mul_succ]
      omega

/-- The seat-order key used by `finish_showdown` equals the claim's
`(i + n − dealer − 1) mod n`. -/
theorem potOrderKey_eq (n dealer i : Nat) (h : dealer < n) :
    potOrderKey ((dealer + 1) % n) n i = (i + n - dealer - 1) % n := by
  unfold potOrderKey
  by_cases h2 : dealer + 1 < n
  · rw [Nat.mod_eq_of_lt h2]
    have h4 : i + n - (dealer + 1) = i + n - dealer - 1 := by omega
    rw [h4]
  · have hn : dealer + 1 = n := by omega
    rw [hn, Nat.mod_self]
    have h0 : i + n - 0 = i + n := by omega
    rw [h0]
    have h3 : i + n - dealer - 1 = i := by omega
    rw [h3]
    exact Nat.add_mod_right i n

/-- Scenario 3: dealer 0, contributions [1, 1, 2], board A K Q J 2, holes
T3 / T4 / 99; the 3-chip main pot ties seats 0 and 1. -/
def oddChipFixture : Game :=
  { Game.new 3 1000 5 10 with
    street := .showdown, dealer := 0,
    board := [⟨.ace, .clubs⟩, ⟨.king, .diamonds⟩, ⟨.queen, .hearts⟩,
              ⟨.jack, .spades⟩, ⟨.two, .clubs⟩],
    pot := 4,
    players := [
      ⟨0, 0, 1, .allIn, some ⟨⟨.ten, .clubs⟩, ⟨.three, .diamonds⟩⟩, none⟩,
      ⟨0, 0, 1, .allIn, some ⟨⟨.ten, .hearts⟩, ⟨.four, .spades⟩⟩, none⟩,
      ⟨0, 0, 2, .allIn, some ⟨⟨.nine, .clubs⟩, ⟨.nine, .diamonds⟩⟩, none⟩] }

/-- C6: a pot of `P` split among `k` tied winners pays each `P / k`, with
the `P mod k` leftover chips going one each to the winners in the order of
the key `(i + n − dealer − 1) mod n` (closeness to the left of the current
dealer) — the key `finish_showdown` sorts by; in scenario 3 (dealer 0,
3-chip main pot tied between seats 0 and 1) seat 1 receives 2 chips and
seat 0 receives 1 chip. -/
theorem distributePot_odd_chips :
    (∀ (potAmount : Nat) (ws : List Nat), ws ≠ [] →
      (distributePot potAmount ws).length = ws.length ∧
      (∀ j, j < ws.length →
        (distributePot potAmount ws).getD j (0, 0, false) =
          (ws.getD j 0,
           potAmount / ws.length +
             (if j < potAmount % ws.length then 1 else 0),
           decide (1 < ws.length)))) ∧
    (∀ n dealer i, dealer < n →
      potOrderKey ((dealer + 1) % n) n i = (i + n - dealer - 1) % n) ∧
    (oddChipFixture.dealer = 0 ∧
      (oddChipFixture.finishShowdown).2.players.map (·.stack) = [1, 2, 1]) := by
  refine ⟨?_, potOrderKey_eq, rfl, by decide⟩
  intro potAmount ws hne
  have hlen : ws ≠ [] → ws.isEmpty = false := by
    cases ws
    · intro h; exact absurd rfl h
    · intro _; rfl
  unfold distributePot
  rw [if_neg (by simp [hlen hne])]
  constructor
  · exact distributePotGo_length _ _ ws _
  · intro j hj
    exact distributePotGo_getD _ _ ws _ j hj

/-- Witness for C6: a 3-chip pot split between winners [1, 0] (seat order
from the dealer's left) pays seat 1 two chips. -/
theorem distributePot_odd_chips_witness :
    (distributePot 3 [1, 0]).getD 0 (0, 0, false) = (1, 2, true) :=
  ((distributePot_odd_chips.1 3 [1, 0] (by decide)).2 0 (by decide)).trans
    (by decide)

/-! ### C1: chip conservation — list accounting -/

/-- A filter's count times a constant, as a sum over the list. -/
theorem filter_length_mul {α : Type} (P : α → Bool) (k : Nat) :
    ∀ (l : List α),
    (l.filter P).length * k = (l.map (fun x => if P x then k else 0)).sum := by
  intro l
  induction l with
  | nil => simp
  | cons x t ih =>
    rw [List.filter_cons, List.map_cons, List.sum_cons]
    by_cases hx : P x = true
    · rw [if_pos hx, if_pos hx, List.length_cons, Nat.succ_mul, ih]
      omega
    · rw [if_neg hx, if_neg hx, ih]
      omega

/-- Filtering the index range by a predicate on the indexed element counts
the same as filtering the list. -/
theorem length_filter_range_getD {α : Type} (d : α) (Q : α → Bool) :
    ∀ (l : List α),
    ((List.range l.length).filter (fun i => Q (l.getD i d))).length
      = (l.filter Q).length := by
  intro l
  induction l with
  | nil => simp
  | cons x t ih =>
    rw [List.length_cons, List.range_succ_eq_map]
    rw [List.filter_cons]
    have hmap : ((List.range t.length).map Nat.succ).filter
        (fun i => Q ((x :: t).getD i d))
        = ((List.range t.length).filter
            (fun i => Q (t.getD i d))).map Nat.succ := by
      rw [List.filter_map]
      rfl
    simp only [List.filter_cons, List.getD_cons_zero, hmap]
    by_cases hq : Q x = true
    · rw [if_pos hq, if_pos hq, List.length_cons, List.length_cons,
        List.length_map, ih]
    · rw [if_neg hq, if_neg hq, List.length_map, ih]

/-- Summing `getD` over the index range recovers the list sum. -/
theorem sum_getD_range : ∀ (l : List Nat),
    ((List.range l.length).map (fun i => l.getD i 0)).sum = l.sum := by
  intro l
  induction l with
  | nil => simp
  | cons x t ih =>
    rw [List.length_cons, List.range_succ_eq_map, List.map_cons]
    have hmap : ((List.range t.length).map Nat.succ).map
        (fun i => (x :: t).getD i 0)
        = (List.range t.length).map (fun i => t.getD i 0) := by
      rw [List.map_map]
      rfl
    rw [hmap, List.sum_cons, ih, List.getD_cons_zero, List.sum_cons]

/-- A player's share of the layered side pots: for each level `lvl` the
player reaches, the increment `lvl − prev`. -/
def levelShare (cont : Nat) : Nat → List Nat → Nat
  | _, [] => 0
  | prev, lvl :: rest =>
    (if lvl ≤ cont then lvl - prev else 0) + levelShare cont lvl rest

/-- The side-pot amounts total the players' per-level shares. -/
theorem sidePotsGo_sum (g : Game) : ∀ (L : List Nat) (prev : Nat),
    (∀ lvl ∈ L, 0 < lvl) →
    ((g.sidePotsGo prev L).map (·.1)).sum
      = (g.players.map (fun p => levelShare p.contributed prev L)).sum := by
  intro L
  induction L with
  | nil => intro prev _; simp [Game.sidePotsGo, levelShare]
  | cons lvl rest ih =>
    intro prev hpos
    have hlpos : 0 < lvl := hpos lvl (List.mem_cons_self _ _)
    have hcnt : (g.contributorIdxs lvl).length
        = (g.players.filter
            (fun p => decide (lvl ≤ p.contributed ∧ 0 < p.contributed))).length := by
      unfold Game.contributorIdxs Game.player
      exact length_filter_range_getD playerDefault
        (fun p => decide (lvl ≤ p.contributed ∧ 0 < p.contributed)) g.players
    have hterm : (lvl - prev) * (g.contributorIdxs lvl).length
        = (g.players.map
            (fun p => if lvl ≤ p.contributed then lvl - prev else 0)).sum := by
      rw [hcnt, Nat.mul_comm,
        filter_length_mul (fun p => decide (lvl ≤ p.contributed ∧ 0 < p.contributed)) (lvl - prev) g.players]
      apply congrArg List.sum
      apply List.map_congr_left
      intro p _
      by_cases hp : lvl ≤ p.contributed
      · rw [if_pos (by simp only [decide_eq_true_eq]; omega), if_pos hp]
      · rw [if_neg (by simp only [decide_eq_true_eq]; omega), if_neg hp]
    have hrest := ih lvl (fun l hl => hpos l (List.mem_cons_of_mem _ hl))
    unfold Game.sidePotsGo
    dsimp only
    have hshare : (g.players.map
        (fun p => levelShare p.contributed prev (lvl :: rest))).sum
        = (g.players.map
            (fun p => if lvl ≤ p.contributed then lvl - prev else 0)).sum
          + (g.players.map
              (fun p => levelShare p.contributed lvl rest)).sum := by
      rw [← List.sum_map_add]
      apply congrArg List.sum
      apply List.map_congr_left
      intro p _
      rfl
    by_cases hamt : 0 < (lvl - prev) * (g.contributorIdxs lvl).length
    · rw [if_pos hamt]
      simp only [List.map_cons, List.sum_cons]
      rw [hterm, hrest, hshare]
    · rw [if_neg hamt]
      rw [hrest, hshare, ← hterm]
      omega

/-- A share over all levels below-or-at the contribution collapses to the
whole contribution above `prev`. -/
theorem levelShare_eq : ∀ (L : List Nat) (prev c : Nat),
    List.Chain' (· < ·) (prev :: L) → prev ≤ c → (c = prev ∨ c ∈ L) →
    levelShare c prev L = c - prev := by
  intro L
  induction L with
  | nil =>
    intro prev c _ hle hc
    rcases hc with hc | hc
    · subst hc; simp [levelShare]
    · cases hc
  | cons lvl rest ih =>
    intro prev c hchain hle hc
    have hprev : prev < lvl := (List.chain'_cons.mp hchain).1
    unfold levelShare
    by_cases hcl : lvl ≤ c
    · rw [if_pos hcl]
      have hc2 : c = lvl ∨ c ∈ rest := by
        rcases hc with hc | hc
        · omega
        · rcases List.mem_cons.mp hc with hc | hc
          · exact Or.inl hc
          · exact Or.inr hc
      rw [ih lvl c (List.chain'_cons.mp hchain).2 hcl hc2]
      omega
    · rw [if_neg hcl]
      have hzero : ∀ (L2 : List Nat) (p2 : Nat),
          List.Chain' (· < ·) (p2 :: L2) → c < p2 →
          levelShare c p2 L2 = 0 := by
        intro L2
        induction L2 with
        | nil => intro p2 _ _; rfl
        | cons a t ih2 =>
          intro p2 hch hclt
          have : p2 < a := (List.chain'_cons.mp hch).1
          unfold levelShare
          rw [if_neg (by omega), ih2 a (List.chain'_cons.mp hch).2 (by omega)]
      have hcp : c = prev := by
        rcases hc with hc | hc
        · exact hc
        · rcases List.mem_cons.mp hc with h1 | h1
          · omega
          · exfalso
            have := List.chain'_cons.mp hchain
            have hall : ∀ x ∈ rest, lvl < x := by
              intro x hx
              have hp := List.chain'_iff_pairwise.mp this.2
              exact (List.pairwise_cons.mp hp).1 x hx
            have := hall c h1
            omega
      subst hcp
      rw [hzero rest lvl (List.chain'_cons.mp hchain).2 hprev]
      omega

/-- The level list prefixed with 0 is still strictly increasing (levels are
positive). -/
theorem chain_zero_levels (g : Game) :
    List.Chain' (· < ·) (0 :: g.contributionLevels) := by
  cases hL : g.contributionLevels with
  | nil => simp
  | cons a t =>
    rw [List.chain'_cons]
    constructor
    · have ha : a ∈ g.contributionLevels := by
        rw [hL]; exact List.mem_cons_self _ _
      exact ((mem_contributionLevels g a).mp ha).2
    · have hc := contributionLevels_chain g
      rw [hL] at hc
      exact hc

/-- Each player's layered share over the full level list is exactly their
contribution. -/
theorem levelShare_contrib (g : Game) (p : Player) (hp : p ∈ g.players) :
    levelShare p.contributed 0 g.contributionLevels = p.contributed := by
  have hchain := chain_zero_levels g
  by_cases h0 : p.contributed = 0
  · rw [h0]
    have := levelShare_eq g.contributionLevels 0 0 hchain (Nat.le_refl 0)
      (Or.inl rfl)
    rw [this]
  · have hm : p.contributed ∈ g.contributionLevels := by
      rw [mem_contributionLevels]
      exact ⟨List.mem_map.mpr ⟨p, hp, rfl⟩, Nat.pos_of_ne_zero h0⟩
    have := levelShare_eq g.contributionLevels 0 p.contributed hchain
      (Nat.zero_le _) (Or.inr hm)
    rw [this]
    omega

/-- The side-pot amounts exhaust the contributed total: nothing is left
behind when the pots are formed. -/
theorem sidePots_total (g : Game) :
    ((g.calculateSidePots).map (·.1)).sum = contribSum g := by
  unfold Game.calculateSidePots contribSum
  rw [sidePotsGo_sum g g.contributionLevels 0
    (fun lvl hl => ((mem_contributionLevels g lvl).mp hl).2)]
  apply congrArg List.sum
  apply List.map_congr_left
  intro p hp
  exact levelShare_contrib g p hp

/-- When every candidate seat has an evaluation, the pot-winner fold
succeeds, returns seats drawn from the accumulator and the candidates, and
returns a nonempty list when the accumulator is nonempty or the fold is
freshly started on a nonempty candidate list. -/
theorem findPotWinnersGo_ok (evals : List (Option Evaluation)) :
    ∀ (l : List Nat) (best : Option Nat) (acc : List Nat),
    (∀ i ∈ l, (evals.getD i none).isSome) →
    ∃ r, findPotWinnersGo evals l best acc = .ok r ∧
      (∀ x ∈ r, x ∈ acc ∨ x ∈ l) ∧
      (acc ≠ [] ∨ (best = none ∧ l ≠ []) → r ≠ []) := by
  intro l
  induction l with
  | nil =>
    intro best acc _
    refine ⟨acc, rfl, fun x hx => Or.inl hx, ?_⟩
    intro h
    rcases h with h | h
    · exact h
    · exact absurd rfl h.2
  | cons i rest ih =>
    intro best acc hev
    have hi := hev i (List.mem_cons_self _ _)
    have hrest : ∀ j ∈ rest, (evals.getD j none).isSome :=
      fun j hj => hev j (List.mem_cons_of_mem _ hj)
    unfold findPotWinnersGo
    cases hE : evals.getD i none with
    | none => rw [hE] at hi; cases hi
    | some ev =>
      have hsub2 : ∀ (r : List Nat),
          (∀ x ∈ r, x ∈ acc ++ [i] ∨ x ∈ rest) →
          (∀ x ∈ r, x ∈ acc ∨ x ∈ i :: rest) := by
        intro r hs x hx
        rcases hs x hx with hx1 | hx1
        · rcases List.mem_append.mp hx1 with hx2 | hx2
          · exact Or.inl hx2
          · cases List.mem_singleton.mp hx2
            exact Or.inr (List.mem_cons_self _ _)
        · exact Or.inr (List.mem_cons_of_mem _ hx1)
      cases best with
      | none =>
        obtain ⟨r, hr, hsub, hne⟩ := ih (some ev.value) (acc ++ [i]) hrest
        exact ⟨r, hr, hsub2 r hsub, fun _ => hne (Or.inl (by simp))⟩
      | some b =>
        dsimp only
        by_cases hlt : b < ev.value
        · rw [if_pos hlt]
          obtain ⟨r, hr, hsub, hne⟩ := ih (some ev.value) [i] hrest
          refine ⟨r, hr, ?_, fun _ => hne (Or.inl (by simp))⟩
          intro x hx
          rcases hsub x hx with hx1 | hx1
          · cases List.mem_singleton.mp hx1
            exact Or.inr (List.mem_cons_self _ _)
          · exact Or.inr (List.mem_cons_of_mem _ hx1)
        · rw [if_neg hlt]
          by_cases heq : ev.value = b
          · rw [if_pos heq]
            obtain ⟨r, hr, hsub, hne⟩ := ih (some b) (acc ++ [i]) hrest
            exact ⟨r, hr, hsub2 r hsub, fun _ => hne (Or.inl (by simp))⟩
          · rw [if_neg heq]
            obtain ⟨r, hr, hsub, hne⟩ := ih (some b) acc hrest
            refine ⟨r, hr, ?_, ?_⟩
            · intro x hx
              rcases hsub x hx with hx1 | hx1
              · exact Or.inl hx1
              · exact Or.inr (List.mem_cons_of_mem _ hx1)
            · intro h
              rcases h with h | h
              · exact hne (Or.inl h)
              · cases h.1

/-- Sum of the amounts handed out by the distribution loop: everyone gets
`per`, plus one extra chip while the remainder lasts. -/
theorem distributePotGo_sum_amounts (per : Nat) (s : Bool) :
    ∀ (ws : List Nat) (rem : Nat),
    ((distributePotGo per s ws rem).map (·.2.1)).sum
      = per * ws.length + min rem ws.length := by
  intro ws
  induction ws with
  | nil => intro rem; simp [distributePotGo]
  | cons w t ih =>
    intro rem
    unfold distributePotGo
    by_cases hr : 0 < rem
    · rw [if_pos hr]
      simp only [List.map_cons, List.sum_cons, ih, List.length_cons]
      have : min (rem - 1) t.length + 1 = min rem (t.length + 1) := by omega
      rw [Nat.mul_succ]
      omega
    · rw [if_neg hr]
      simp only [List.map_cons, List.sum_cons, ih, List.length_cons]
      rw [Nat.mul_succ]
      omega

/-- Every seat in the distribution entries is one of the winners. -/
theorem distributePotGo_mem (per : Nat) (s : Bool) :
    ∀ (ws : List Nat) (rem : Nat) (e : Nat × Nat × Bool),
    e ∈ distributePotGo per s ws rem → e.1 ∈ ws := by
  intro ws
  induction ws with
  | nil => intro rem e he; cases he
  | cons w t ih =>
    intro rem e he
    unfold distributePotGo at he
    by_cases hr : 0 < rem
    · rw [if_pos hr] at he
      rcases List.mem_cons.mp he with h1 | h1
      · subst h1; exact List.mem_cons_self _ _
      · exact List.mem_cons_of_mem _ (ih _ _ h1)
    · rw [if_neg hr] at he
      rcases List.mem_cons.mp he with h1 | h1
      · subst h1; exact List.mem_cons_self _ _
      · exact List.mem_cons_of_mem _ (ih _ _ h1)

/-- A nonempty winner list receives the whole pot amount. -/
theorem distributePot_sum (amount : Nat) (winners : List Nat)
    (hne : winners ≠ []) :
    ((distributePot amount winners).map (·.2.1)).sum = amount := by
  unfold distributePot
  rw [if_neg (by simpa using hne)]
  rw [distributePotGo_sum_amounts]
  have hlen : 0 < winners.length := List.length_pos.mpr hne
  have hmod : amount % winners.length < winners.length :=
    Nat.mod_lt _ hlen
  have hdm := Nat.div_add_mod amount winners.length
  have hmin : min (amount % winners.length) winners.length
      = amount % winners.length := by omega
  rw [hmin]
  calc amount / winners.length * winners.length + amount % winners.length
      = winners.length * (amount / winners.length)
        + amount % winners.length := by rw [Nat.mul_comm]
    _ = amount := hdm

/-- The seats of a pot's distribution are among its winners. -/
theorem distributePot_mem (amount : Nat) (winners : List Nat)
    (e : Nat × Nat × Bool) (he : e ∈ distributePot amount winners) :
    e.1 ∈ winners := by
  unfold distributePot at he
  by_cases hw : winners.isEmpty
  · rw [if_pos hw] at he; cases he
  · rw [if_neg hw] at he
    exact distributePotGo_mem _ _ _ _ _ he

/-- Adding `a` at an in-bounds index raises the list sum by `a`. -/
theorem sum_set_add (l : List Nat) (i a : Nat) (h : i < l.length) :
    (l.set i (l.getD i 0 + a)).sum = l.sum + a := by
  have := sum_map_set id l i (l.getD i 0 + a) 0 h
  simp only [List.map_id, id] at this
  omega

/-- Applying a pot's distribution entries preserves the winnings-table
length. -/
theorem applyDistribution_len :
    ∀ (E : List (Nat × Nat × Bool)) (w : List Nat) (s : List Bool),
    (applyDistribution E w s).1.length = w.length := by
  intro E
  induction E with
  | nil => intro w s; rfl
  | cons e t ih =>
    intro w s
    unfold applyDistribution
    rw [List.foldl_cons]
    have := ih (w.set e.1 (w.getD e.1 0 + e.2.1))
      (if e.2.2 then s.set e.1 true else s)
    unfold applyDistribution at this
    rw [this, List.length_set]

/-- Applying a pot's distribution entries (all seats in bounds) adds the
entries' amounts to the winnings-table total. -/
theorem applyDistribution_sum :
    ∀ (E : List (Nat × Nat × Bool)) (w : List Nat) (s : List Bool),
    (∀ e ∈ E, e.1 < w.length) →
    (applyDistribution E w s).1.sum = w.sum + (E.map (·.2.1)).sum := by
  intro E
  induction E with
  | nil => intro w s _; simp [applyDistribution]
  | cons e t ih =>
    intro w s hb
    unfold applyDistribution
    rw [List.foldl_cons]
    have hrec := ih (w.set e.1 (w.getD e.1 0 + e.2.1))
      (if e.2.2 then s.set e.1 true else s)
      (by
        intro x hx
        rw [List.length_set]
        exact hb x (List.mem_cons_of_mem _ hx))
    unfold applyDistribution at hrec
    rw [hrec, sum_set_add w e.1 e.2.1 (hb e (List.mem_cons_self _ _))]
    simp only [List.map_cons, List.sum_cons]
    omega

/-- Mapping a per-player rewrite that preserves a measured field preserves
the mapped sum. -/
theorem sum_map_map {α : Type} (f : α → α) (h : α → Nat) (l : List α)
    (hf : ∀ p, h (f p) = h p) : ((l.map f).map h).sum = (l.map h).sum := by
  rw [List.map_map]
  apply congrArg List.sum
  apply List.map_congr_left
  intro x _
  exact hf x

/-- Stack total after writing one in-bounds seat. -/
theorem setPlayer_stackSum (g : Game) (i : Nat) (p' : Player)
    (hi : i < g.players.length) :
    stackSum (g.setPlayer i p') + (g.player i).stack
      = stackSum g + p'.stack := by
  unfold Game.setPlayer stackSum Game.player
  exact sum_map_set (·.stack) g.players i p' playerDefault hi

/-- Contribution total after writing one in-bounds seat. -/
theorem setPlayer_contribSum (g : Game) (i : Nat) (p' : Player)
    (hi : i < g.players.length) :
    contribSum (g.setPlayer i p') + (g.player i).contributed
      = contribSum g + p'.contributed := by
  unfold Game.setPlayer contribSum Game.player
  exact sum_map_set (·.contributed) g.players i p' playerDefault hi

/-- Stack-plus-contribution total after writing one in-bounds seat. -/
theorem setPlayer_stackContribSum (g : Game) (i : Nat) (p' : Player)
    (hi : i < g.players.length) :
    stackContribSum (g.setPlayer i p')
        + ((g.player i).stack + (g.player i).contributed)
      = stackContribSum g + (p'.stack + p'.contributed) := by
  unfold Game.setPlayer stackContribSum Game.player
  exact sum_map_set (fun p => p.stack + p.contributed) g.players i p'
    playerDefault hi

/-- Writing a seat without changing its stack preserves the stack total
(out-of-bounds writes are no-ops). -/
theorem setPlayer_stackSum_eq (g : Game) (i : Nat) (p' : Player)
    (hs : p'.stack = (g.player i).stack) :
    stackSum (g.setPlayer i p') = stackSum g := by
  by_cases hi : i < g.players.length
  · have := setPlayer_stackSum g i p' hi
    omega
  · unfold Game.setPlayer
    rw [set_oob _ _ _ (by omega)]

/-- Writing a seat without changing its contribution preserves the
contribution total. -/
theorem setPlayer_contribSum_eq (g : Game) (i : Nat) (p' : Player)
    (hs : p'.contributed = (g.player i).contributed) :
    contribSum (g.setPlayer i p') = contribSum g := by
  by_cases hi : i < g.players.length
  · have := setPlayer_contribSum g i p' hi
    omega
  · unfold Game.setPlayer
    rw [set_oob _ _ _ (by omega)]

/-- Writing a seat without changing stack + contribution preserves the
conservation total. -/
theorem setPlayer_stackContribSum_eq (g : Game) (i : Nat) (p' : Player)
    (hs : p'.stack + p'.contributed
      = (g.player i).stack + (g.player i).contributed) :
    stackContribSum (g.setPlayer i p') = stackContribSum g := by
  by_cases hi : i < g.players.length
  · have := setPlayer_stackContribSum g i p' hi
    omega
  · unfold Game.setPlayer
    rw [set_oob _ _ _ (by omega)]

/-- `pay_amount` moves chips without creating or destroying them: the
stack-plus-contributed total is unchanged, stacks plus pot is unchanged,
and the pot grows exactly as the contributions do. -/
theorem payAmount_sums (g : Game) (i a : Nat) :
    stackContribSum (g.payAmount i a).2 = stackContribSum g ∧
    stackSum (g.payAmount i a).2 + (g.payAmount i a).2.pot
      = stackSum g + g.pot ∧
    (g.payAmount i a).2.pot + contribSum g
      = g.pot + contribSum (g.payAmount i a).2 ∧
    (g.payAmount i a).2.players.length = g.players.length := by
  unfold Game.payAmount
  dsimp only
  set p := g.player i with hp
  set paid := min p.stack a with hpaid
  set p1 : Player := { p with stack := p.stack - paid, bet := p.bet + paid,
                              contributed := p.contributed + paid } with hp1
  set p2 := if p1.stack = 0 then { p1 with status := .allIn } else p1 with hp2
  have h2s : p2.stack = p.stack - paid := by
    rw [hp2]; split <;> rfl
  have h2c : p2.contributed = p.contributed + paid := by
    rw [hp2]; split <;> rfl
  have hlen : (g.setPlayer i p2).players.length = g.players.length := by
    unfold Game.setPlayer
    exact List.length_set _ _ _
  have hpaid_le : paid ≤ p.stack := Nat.min_le_left _ _
  have hscs : stackContribSum (g.setPlayer i p2) = stackContribSum g := by
    apply setPlayer_stackContribSum_eq
    rw [h2s, h2c, ← hp]
    omega
  by_cases hi : i < g.players.length
  · have hss := setPlayer_stackSum g i p2 hi
    have hcs := setPlayer_contribSum g i p2 hi
    rw [h2s, ← hp] at hss
    rw [h2c, ← hp] at hcs
    refine ⟨hscs, ?_, ?_, hlen⟩
    · show stackSum (g.setPlayer i p2) + (g.pot + paid) = stackSum g + g.pot
      omega
    · show g.pot + paid + contribSum g
        = g.pot + contribSum (g.setPlayer i p2)
      omega
  · have hpz : p.stack = 0 := by
      rw [hp]
      unfold Game.player
      rw [List.getD_eq_default _ _ (by omega)]
      rfl
    have hpaidz : paid = 0 := by
      rw [hpaid, hpz]
      exact Nat.min_eq_left (Nat.zero_le _)
    have hset : (g.setPlayer i p2).players = g.players := by
      unfold Game.setPlayer
      exact set_oob _ _ _ (by omega)
    have hssg : stackSum (g.setPlayer i p2) = stackSum g := by
      unfold stackSum Game.setPlayer
      unfold Game.setPlayer at hset
      rw [hset]
    have hcsg : contribSum (g.setPlayer i p2) = contribSum g := by
      unfold contribSum Game.setPlayer
      unfold Game.setPlayer at hset
      rw [hset]
    refine ⟨hscs, ?_, ?_, hlen⟩
    · show stackSum (g.setPlayer i p2) + (g.pot + paid) = stackSum g + g.pot
      omega
    · show g.pot + paid + contribSum g
        = g.pot + contribSum (g.setPlayer i p2)
      omega

/-- Awarding the pot to an in-bounds seat moves the whole pot into that
seat's stack and clears the pot; contributions are untouched. -/
theorem awardPot_sums (g : Game) (i : Nat) (c : Option Category)
    (hi : i < g.players.length) :
    stackSum (g.awardPotToSingleWinner i c) = stackSum g + g.pot ∧
    (g.awardPotToSingleWinner i c).pot = 0 ∧
    contribSum (g.awardPotToSingleWinner i c) = contribSum g := by
  unfold Game.awardPotToSingleWinner
  dsimp only
  set p := g.player i with hp
  set p' : Player := { p with stack := p.stack + g.pot,
                              lastAction := some (.win g.pot) } with hp'
  have hps : p'.stack = p.stack + g.pot := by rw [hp']
  have hpc : p'.contributed = p.contributed := by rw [hp']
  have hss : stackSum (g.setPlayer i p') = stackSum g + g.pot := by
    have h1 := setPlayer_stackSum g i p' hi
    rw [← hp] at h1
    omega
  have hcs : contribSum (g.setPlayer i p') = contribSum g := by
    apply setPlayer_contribSum_eq
    rw [hpc, hp]
  cases c with
  | none => exact ⟨hss, rfl, hcs⟩
  | some cat =>
    dsimp only
    split
    · exact ⟨hss, rfl, hcs⟩
    · exact ⟨hss, rfl, hcs⟩

/-- When `handle_simple_showdown` defers to the full resolution, the
players are exactly the bet-cleared originals and the pot is untouched. -/
theorem handleSimpleShowdown_notHandled (g : Game) (c : List Nat)
    (g2 : Game) (h : g.handleSimpleShowdown c = .notHandled g2) :
    g2.players = g.players.map (fun p => { p with bet := 0 }) ∧
    g2.pot = g.pot := by
  unfold Game.handleSimpleShowdown at h
  cases c with
  | nil => cases h
  | cons i rest =>
    cases rest with
    | nil => cases h
    | cons j t =>
      dsimp only at h
      split at h
      · split at h
        · cases h
          have hf := completeBoardGo_frame 5
            { g with players := g.players.map (fun p => { p with bet := 0 }) }
          unfold Game.completeBoard
          exact ⟨hf.2.1, hf.2.2⟩
        · cases h
      · cases h
        exact ⟨rfl, rfl⟩

/-- When `handle_simple_showdown` settles the hand itself (with at least
one in-bounds contender), the whole pot lands in one stack. -/
theorem handleSimpleShowdown_handled (g : Game) (c : List Nat) (g2 : Game)
    (hc : c ≠ []) (hb : ∀ i ∈ c, i < g.players.length)
    (h : g.handleSimpleShowdown c = .handled g2) :
    stackSum g2 = stackSum g + g.pot ∧ g2.pot = 0 := by
  have hzs : stackSum ({ g with players := g.players.map (fun p => { p with bet := 0 }) } : Game) = stackSum g := by
    unfold stackSum
    dsimp only
    exact sum_map_map (fun p => { p with bet := 0 }) (·.stack) g.players
      (fun p => rfl)
  have hzl : (({ g with players := g.players.map (fun p => { p with bet := 0 }) } : Game)).players.length = g.players.length := by
    exact List.length_map _ _
  unfold Game.handleSimpleShowdown at h
  cases c with
  | nil => exact absurd rfl hc
  | cons i rest =>
    have hi : i < g.players.length := hb i (List.mem_cons_self _ _)
    cases rest with
    | nil =>
      dsimp only at h
      cases h
      have ha : ∀ (cat : Option Category),
          stackSum (Game.awardPotToSingleWinner { g with players := g.players.map (fun p => { p with bet := 0 }) } i cat)
              = stackSum g + g.pot ∧
            (Game.awardPotToSingleWinner { g with players := g.players.map (fun p => { p with bet := 0 }) } i cat).pot
              = 0 := by
        intro cat
        have h1 := awardPot_sums
          { g with players := g.players.map (fun p => { p with bet := 0 }) } i
          cat (by rw [hzl]; exact hi)
        refine ⟨?_, h1.2.1⟩
        rw [h1.1, hzs]
      exact ⟨(ha _).1, (ha _).2⟩
    | cons j t =>
      dsimp only at h
      split at h
      · split at h
        · cases h
        · cases h
          have hf := completeBoardGo_frame 5
            { g with players := g.players.map (fun p => { p with bet := 0 }) }
          have hcp : (Game.completeBoard { g with players := g.players.map (fun p => { p with bet := 0 }) }).2.players
              = g.players.map (fun p => { p with bet := 0 }) := by
            unfold Game.completeBoard
            exact hf.2.1
          have hcpot : (Game.completeBoard { g with players := g.players.map (fun p => { p with bet := 0 }) }).2.pot
              = g.pot := by
            unfold Game.completeBoard
            exact hf.2.2
          have ha := awardPot_sums
            (Game.completeBoard { g with players := g.players.map (fun p => { p with bet := 0 }) }).2 i none
            (by rw [hcp, List.length_map]; exact hi)
          have hsg : stackSum (Game.completeBoard { g with players := g.players.map (fun p => { p with bet := 0 }) }).2
              = stackSum g := by
            unfold stackSum
            rw [hcp]
            exact sum_map_map (fun p => { p with bet := 0 }) (·.stack)
              g.players (fun p => rfl)
          refine ⟨?_, ha.2.1⟩
          rw [ha.1, hsg, hcpot]
      · cases h

/-- A successful `evaluate_all_hands` pass keeps the table length, never
erases an evaluation, and records one for every in-bounds seat it
visits. -/
theorem evaluateAllHandsGo_ok :
    ∀ (c : List Nat) (evals : List (Option Evaluation)) (g : Game)
      (evals' : List (Option Evaluation)) (g' : Game),
    Game.evaluateAllHandsGo evals c g = (.ok evals', g') →
    evals'.length = evals.length ∧
    (∀ i, (evals.getD i none).isSome = true →
      (evals'.getD i none).isSome = true) ∧
    (∀ i ∈ c, i < evals.length → (evals'.getD i none).isSome = true) := by
  intro c
  induction c with
  | nil =>
    intro evals g evals' g' h
    unfold Game.evaluateAllHandsGo at h
    cases h
    exact ⟨rfl, fun i hi => hi, fun i hi => absurd hi (List.not_mem_nil i)⟩
  | cons i rest ih =>
    intro evals g evals' g' h
    unfold Game.evaluateAllHandsGo at h
    cases hh : (g.player i).hole with
    | none => rw [hh] at h; cases h
    | some hc =>
      rw [hh] at h
      dsimp only at h
      cases he : evaluateHoldem hc g.board with
      | error e => rw [he] at h; cases h
      | ok ev =>
        rw [he] at h
        dsimp only at h
        have hset : ∀ j, ((evals.set i (some ev)).getD j none).isSome = true
            → (evals'.getD j none).isSome = true := by
          intro j
          split at h
          · exact (ih _ _ _ _ h).2.1 j
          · exact (ih _ _ _ _ h).2.1 j
        have hlen : evals'.length = evals.length := by
          have : evals'.length = (evals.set i (some ev)).length := by
            split at h
            · exact (ih _ _ _ _ h).1
            · exact (ih _ _ _ _ h).1
          rw [this, List.length_set]
        have hrest : ∀ j ∈ rest, j < (evals.set i (some ev)).length →
            (evals'.getD j none).isSome = true := by
          intro j hj hjl
          split at h
          · exact (ih _ _ _ _ h).2.2 j hj hjl
          · exact (ih _ _ _ _ h).2.2 j hj hjl
        refine ⟨hlen, ?_, ?_⟩
        · intro j hj
          apply hset j
          by_cases hij : i = j
          · subst hij
            by_cases hil : i < evals.length
            · rw [getD_set_self _ _ _ _ hil]
              rfl
            · rw [set_oob _ _ _ (by omega)]
              exact hj
          · rw [getD_set_ne _ _ _ _ _ hij]
            exact hj
        · intro j hj hjl
          rcases List.mem_cons.mp hj with hji | hjr
          · subst hji
            apply hset j
            rw [getD_set_self _ _ _ _ hjl]
            rfl
          · exact hrest j hjr (by rw [List.length_set]; exact hjl)

/-- Membership in a pot's eligibility filter. -/
theorem mem_eligibleOf (g : Game) (c : List Nat) (i : Nat) :
    i ∈ g.eligibleOf c ↔
      i ∈ c ∧ ¬ (g.player i).status = .folded ∧
        (g.player i).hole.isSome = true := by
  unfold Game.eligibleOf
  rw [List.mem_filter]
  simp only [decide_eq_true_eq]

/-- The side-pot distribution loop succeeds and hands out every pot in
full when each pot has an eligible contender and every contributor seat is
in bounds. -/
theorem distributeLoop_ok (g : Game) (evals : List (Option Evaluation))
    (start n : Nat)
    (hev : ∀ i, ¬ (g.player i).status = .folded →
      (g.player i).hole.isSome = true → (evals.getD i none).isSome = true) :
    ∀ (pots : List (Nat × List Nat)) (w : List Nat) (s : List Bool),
    (∀ p ∈ pots, ∀ i ∈ p.2, i < w.length) →
    (∀ p ∈ pots, g.eligibleOf p.2 ≠ []) →
    ∃ r, g.distributeLoop evals start n pots w s = .ok r ∧
      r.1.sum = w.sum + (pots.map (·.1)).sum ∧ r.1.length = w.length := by
  intro pots
  induction pots with
  | nil =>
    intro w s _ _
    exact ⟨(w, s), rfl, by simp, rfl⟩
  | cons pot rest ih =>
    intro w s hbound hne
    obtain ⟨amount, contributors⟩ := pot
    have helig : g.eligibleOf contributors ≠ [] :=
      hne (amount, contributors) (List.mem_cons_self _ _)
    have hevE : ∀ i ∈ g.eligibleOf contributors,
        (evals.getD i none).isSome = true := by
      intro i hi
      obtain ⟨_, h2, h3⟩ := (mem_eligibleOf g contributors i).mp hi
      exact hev i h2 h3
    obtain ⟨pw, hpw, hsub, hpne⟩ :=
      findPotWinnersGo_ok evals (g.eligibleOf contributors) none [] hevE
    have hpw_ne : pw ≠ [] := hpne (Or.inr ⟨rfl, helig⟩)
    have hpw_mem : ∀ x ∈ pw, x ∈ g.eligibleOf contributors := by
      intro x hx
      rcases hsub x hx with h1 | h1
      · cases h1
      · exact h1
    unfold Game.distributeLoop
    dsimp only
    rw [if_neg (by simpa using helig)]
    have hfind : findPotWinners (g.eligibleOf contributors) evals = .ok pw :=
      hpw
    rw [hfind]
    dsimp only
    rw [if_neg (by simpa using hpw_ne)]
    set sorted := sortByLe
      (fun a b => potOrderKey start n a ≤ potOrderKey start n b) pw with hsorted
    have hsp : List.Perm sorted pw := sortByLe_perm _ pw
    have hsorted_ne : sorted ≠ [] := by
      intro hemp
      have := hsp.length_eq
      rw [hemp] at this
      exact hpw_ne (List.length_eq_zero.mp this.symm)
    have hdist_sum := distributePot_sum amount sorted hsorted_ne
    have hdist_mem : ∀ e ∈ distributePot amount sorted, e.1 < w.length := by
      intro e he
      have h1 : e.1 ∈ sorted := distributePot_mem amount sorted e he
      have h2 : e.1 ∈ pw := hsp.mem_iff.mp h1
      have h3 := (mem_eligibleOf g contributors e.1).mp (hpw_mem _ h2)
      exact hbound (amount, contributors) (List.mem_cons_self _ _) e.1 h3.1
    have happ_sum := applyDistribution_sum (distributePot amount sorted) w s
      hdist_mem
    have happ_len := applyDistribution_len (distributePot amount sorted) w s
    obtain ⟨r, hr, hrsum, hrlen⟩ := ih
      (applyDistribution (distributePot amount sorted) w s).1
      (applyDistribution (distributePot amount sorted) w s).2
      (by
        intro p hp i hi
        rw [happ_len]
        exact hbound p (List.mem_cons_of_mem _ hp) i hi)
      (fun p hp => hne p (List.mem_cons_of_mem _ hp))
    refine ⟨r, hr, ?_, by rw [hrlen, happ_len]⟩
    rw [hrsum, happ_sum, hdist_sum]
    simp only [List.map_cons, List.sum_cons]
    omega

/-- A payout fold over seat indices adds each visited in-bounds seat's
winnings to the stack total. -/
theorem payout_foldl_sums (w : List Nat) (f : Game → Nat → Game)
    (hf : ∀ g i, i < g.players.length →
      stackSum (f g i) = stackSum g + w.getD i 0 ∧
      (f g i).players.length = g.players.length) :
    ∀ (l : List Nat) (g : Game), (∀ i ∈ l, i < g.players.length) →
    stackSum (l.foldl f g)
        = stackSum g + (l.map (fun i => w.getD i 0)).sum ∧
    (l.foldl f g).players.length = g.players.length := by
  intro l
  induction l with
  | nil => intro g _; exact ⟨by simp, rfl⟩
  | cons i t ih =>
    intro g hb
    have hi : i < g.players.length := hb i (List.mem_cons_self _ _)
    obtain ⟨hs1, hl1⟩ := hf g i hi
    rw [List.foldl_cons]
    obtain ⟨hs2, hl2⟩ := ih (f g i)
      (by intro j hj; rw [hl1]; exact hb j (List.mem_cons_of_mem _ hj))
    refine ⟨?_, by rw [hl2, hl1]⟩
    rw [hs2, hs1]
    simp only [List.map_cons, List.sum_cons]
    omega

/-- One step of the `finalize_showdown` payout fold. -/
theorem finalizeStep_sums (w : List Nat) (s : List Bool) (g : Game) (i : Nat)
    (hi : i < g.players.length) :
    stackSum (if w.getD i 0 = 0 then g
      else (g.setPlayer i { g.player i with stack := (g.player i).stack + w.getD i 0, lastAction := some (if s.getD i false then .split (w.getD i 0) else .win (w.getD i 0)) }).recordHistory i (if s.getD i false then .split else .win) (some (w.getD i 0)))
      = stackSum g + w.getD i 0 ∧
    (if w.getD i 0 = 0 then g
      else (g.setPlayer i { g.player i with stack := (g.player i).stack + w.getD i 0, lastAction := some (if s.getD i false then .split (w.getD i 0) else .win (w.getD i 0)) }).recordHistory i (if s.getD i false then .split else .win) (some (w.getD i 0))).players.length
      = g.players.length := by
  by_cases h0 : w.getD i 0 = 0
  · rw [if_pos h0, h0]
    exact ⟨rfl, rfl⟩
  · rw [if_neg h0]
    set p' : Player := { g.player i with stack := (g.player i).stack + w.getD i 0, lastAction := some (if s.getD i false then .split (w.getD i 0) else .win (w.getD i 0)) } with hp'
    have hps : p'.stack = (g.player i).stack + w.getD i 0 := by rw [hp']
    have h1 := setPlayer_stackSum g i p' hi
    have h2 : stackSum ((g.setPlayer i p').recordHistory i
        (if s.getD i false then .split else .win) (some (w.getD i 0)))
        = stackSum (g.setPlayer i p') := rfl
    have h3 : ((g.setPlayer i p').recordHistory i
        (if s.getD i false then .split else .win)
        (some (w.getD i 0))).players = g.players.set i p' := rfl
    refine ⟨?_, by rw [h3, List.length_set]⟩
    rw [h2]
    omega

/-- `finalize_showdown` pays the winnings table into the stacks and clears
the pot. -/
theorem finalizeShowdown_sums (g : Game) (w : List Nat) (s : List Bool)
    (hw : w.length = g.players.length) :
    stackSum (g.finalizeShowdown w s) = stackSum g + w.sum ∧
    (g.finalizeShowdown w s).pot = 0 := by
  unfold Game.finalizeShowdown
  dsimp only
  refine ⟨?_, rfl⟩
  have hlit : ∀ (X : Game) (ws : List Nat),
      stackSum { X with pot := 0, currentBet := 0, minRaise := X.bigBlind, lastRaiser := none, roundStarter := X.current, winners := ws } = stackSum X :=
    fun X ws => rfl
  rw [hlit]
  refine Eq.trans
    ((payout_foldl_sums w _ ?_ (List.range g.players.length) g ?_).1) ?_
  · exact fun g i hi => finalizeStep_sums w s g i hi
  · intro i hi
    exact List.mem_range.mp hi
  · rw [← hw, sum_getD_range w]

/-- `getD` through a `map`, at an in-bounds index. -/
theorem getD_map {α β : Type} (f : α → β) (l : List α) (i : Nat) (d : β)
    (d' : α) (h : i < l.length) :
    (l.map f).getD i d = f (l.getD i d') := by
  rw [List.getD_eq_getElem _ _ (by simpa using h),
    List.getD_eq_getElem _ _ h, List.getElem_map]

/-- Membership in the contender list. -/
theorem mem_contenders (g : Game) (i : Nat) :
    i ∈ g.contenders ↔ i < g.players.length ∧
      ¬ (g.player i).status = .folded ∧ (g.player i).hole.isSome = true := by
  unfold Game.contenders
  rw [List.mem_filter, List.mem_range]
  simp only [decide_eq_true_eq]

/-- Contributor seats are in bounds. -/
theorem contributorIdxs_lt (g : Game) (lvl : Nat) :
    ∀ i ∈ g.contributorIdxs lvl, i < g.players.length := by
  intro i hi
  unfold Game.contributorIdxs at hi
  exact List.mem_range.mp (List.mem_filter.mp hi).1

/-- Every pot the side-pot fold emits carries the contributor list of one
of the levels. -/
theorem sidePotsGo_pots (g : Game) : ∀ (L : List Nat) (prev : Nat)
    (p : Nat × List Nat), p ∈ g.sidePotsGo prev L →
    ∃ lvl ∈ L, p.2 = g.contributorIdxs lvl := by
  intro L
  induction L with
  | nil => intro prev p hp; cases hp
  | cons lvl rest ih =>
    intro prev p hp
    unfold Game.sidePotsGo at hp
    dsimp only at hp
    by_cases ha : 0 < (lvl - prev) * (g.contributorIdxs lvl).length
    · rw [if_pos ha] at hp
      rcases List.mem_cons.mp hp with h1 | h1
      · subst h1
        exact ⟨lvl, List.mem_cons_self _ _, rfl⟩
      · obtain ⟨l2, hl2, hl2e⟩ := ih lvl p h1
        exact ⟨l2, List.mem_cons_of_mem _ hl2, hl2e⟩
    · rw [if_neg ha] at hp
      obtain ⟨l2, hl2, hl2e⟩ := ih lvl p hp
      exact ⟨l2, List.mem_cons_of_mem _ hl2, hl2e⟩

/-- When the pot is nonempty and some maximal contributor is still in
contention, `finish_showdown` on success pays the entire contributed total
back into the stacks and clears the pot. -/
theorem finishShowdown_payout (g : Game)
    (h0 : contribSum g ≠ 0)
    (hmax : ∃ j, j < g.players.length ∧ ¬ (g.player j).status = .folded ∧
      (g.player j).hole.isSome = true ∧
      ∀ i, i < g.players.length →
        (g.player i).contributed ≤ (g.player j).contributed)
    (hok : (Game.finishShowdown g).1 = .ok ()) :
    stackSum (Game.finishShowdown g).2 = stackSum g + contribSum g ∧
    (Game.finishShowdown g).2.pot = 0 := by
  obtain ⟨j, hj, hjf, hjh, hjm⟩ := hmax
  unfold Game.finishShowdown Game.syncPotWithContributions at hok ⊢
  rw [if_neg h0] at hok ⊢
  dsimp only at hok ⊢
  cases hH : Game.handleSimpleShowdown { g with pot := contribSum g }
      (Game.contenders { g with pot := contribSum g }) with
  | handled g2 =>
    dsimp only
    have hjC : j ∈ Game.contenders { g with pot := contribSum g } :=
      (mem_contenders _ j).mpr ⟨hj, hjf, hjh⟩
    have hsums := handleSimpleShowdown_handled
      { g with pot := contribSum g }
      (Game.contenders { g with pot := contribSum g }) g2
      (List.ne_nil_of_mem hjC)
      (fun i hi => ((mem_contenders _ i).mp hi).1) hH
    exact hsums
  | notHandled g2 =>
    rw [hH] at hok
    dsimp only at hok ⊢
    have hnh := handleSimpleShowdown_notHandled
      { g with pot := contribSum g }
      (Game.contenders { g with pot := contribSum g }) g2 hH
    have hg2p : g2.players = g.players.map (fun p => { p with bet := 0 }) :=
      hnh.1
    have hg2pot : g2.pot = contribSum g := hnh.2
    have hg2len : g2.players.length = g.players.length := by
      rw [hg2p, List.length_map]
    split at hok
    · rename_i e g3 heq
      dsimp only at hok
      cases hok
    · rename_i evals g3 heq
      have hframe := evaluateAllHands_frame g2
        (Game.contenders { g with pot := contribSum g })
      rw [heq] at hframe
      dsimp only at hframe
      have hg3p : g3.players = g.players.map (fun p => { p with bet := 0 }) :=
        hframe.2.1.trans hg2p
      have hg3len : g3.players.length = g.players.length := by
        rw [hg3p, List.length_map]
      have hplayer : ∀ i, i < g.players.length →
          g3.player i = { g.player i with bet := 0 } := by
        intro i hi
        unfold Game.player
        rw [hg3p]
        exact getD_map _ _ _ _ playerDefault hi
      have hplayer_oob : ∀ i, ¬ i < g.players.length →
          g3.player i = playerDefault := by
        intro i hi
        unfold Game.player
        apply List.getD_eq_default
        rw [hg3len]
        omega
      have hgo := heq
      unfold Game.evaluateAllHands at hgo
      obtain ⟨hlenE, hpres, hdef⟩ :=
        evaluateAllHandsGo_ok _ _ _ _ _ hgo
      have hev : ∀ i, ¬ (g3.player i).status = .folded →
          (g3.player i).hole.isSome = true →
          (evals.getD i none).isSome = true := by
        intro i hif hih
        by_cases hi : i < g.players.length
        · have hst : (g3.player i).status = (g.player i).status := by
            rw [hplayer i hi]
          have hhl : (g3.player i).hole = (g.player i).hole := by
            rw [hplayer i hi]
          have hCg : Game.contenders { g with pot := contribSum g }
              = Game.contenders g := rfl
          apply hdef i
          · rw [hCg]
            apply (mem_contenders g i).mpr
            refine ⟨hi, ?_, ?_⟩
            · rw [← hst]
              exact hif
            · rw [← hhl]
              exact hih
          · rw [List.length_replicate, hg2len]
            exact hi
        · exfalso
          rw [hplayer_oob i hi] at hif
          exact hif rfl
      have hmaxc : ∀ i, i < g.players.length →
          (g3.player i).contributed ≤ (g3.player j).contributed := by
        intro i hi
        rw [hplayer i hi, hplayer j hj]
        exact hjm i hi
      have hbound : ∀ p ∈ g3.calculateSidePots, ∀ i ∈ p.2,
          i < (List.replicate g3.players.length (0 : Nat)).length := by
        intro p hp i hi
        rw [List.length_replicate]
        obtain ⟨lvl, _, hl2⟩ := sidePotsGo_pots g3 _ _ p hp
        rw [hl2] at hi
        exact contributorIdxs_lt g3 lvl i hi
      have hne : ∀ p ∈ g3.calculateSidePots, g3.eligibleOf p.2 ≠ [] := by
        intro p hp
        obtain ⟨lvl, hlvl, hl2⟩ := sidePotsGo_pots g3 _ _ p hp
        obtain ⟨i, hi, hic⟩ := contributionLevels_attained g3 lvl hlvl
        have hlpos : 0 < lvl :=
          ((mem_contributionLevels g3 lvl).mp hlvl).2
        have hile : lvl ≤ (g3.player j).contributed := by
          rw [← hic]
          exact hmaxc i (by rw [← hg3len]; exact hi)
        have hjmem : j ∈ g3.contributorIdxs lvl := by
          unfold Game.contributorIdxs
          rw [List.mem_filter, List.mem_range]
          refine ⟨by rw [hg3len]; exact hj, ?_⟩
          simp only [decide_eq_true_eq]
          exact ⟨hile, by omega⟩
        apply List.ne_nil_of_mem
        apply (mem_eligibleOf g3 p.2 j).mpr
        refine ⟨by rw [hl2]; exact hjmem, ?_, ?_⟩
        · rw [hplayer j hj]
          exact hjf
        · rw [hplayer j hj]
          exact hjh
      split at hok
      · rename_i e heq2
        obtain ⟨r, hr, hsum, hlen⟩ := distributeLoop_ok g3 evals
          (if g3.players.length = 0 then 0
           else (g3.dealer + 1) % g3.players.length)
          g3.players.length hev g3.calculateSidePots
          (List.replicate g3.players.length 0)
          (List.replicate g3.players.length false) hbound hne
        rw [heq2] at hr
        cases hr
      · rename_i ws heq2
        obtain ⟨r, hr, hsum, hlen⟩ := distributeLoop_ok g3 evals
          (if g3.players.length = 0 then 0
           else (g3.dealer + 1) % g3.players.length)
          g3.players.length hev g3.calculateSidePots
          (List.replicate g3.players.length 0)
          (List.replicate g3.players.length false) hbound hne
        rw [heq2] at hr
        injection hr with h'
        subst h'
        dsimp only
        have hstack3 : stackSum g3 = stackSum g := by
          unfold stackSum
          rw [hg3p]
          exact sum_map_map (fun p => { p with bet := 0 }) (·.stack)
            g.players (fun p => rfl)
        have hcontrib3 : contribSum g3 = contribSum g := by
          unfold contribSum
          rw [hg3p]
          exact sum_map_map (fun p => { p with bet := 0 }) (·.contributed)
            g.players (fun p => rfl)
        have hwsum : ws.1.sum = contribSum g := by
          rw [hsum, sidePots_total g3, hcontrib3]
          simp [List.sum_replicate]
        have hwlen : ws.1.length = g3.players.length := by
          rw [hlen, List.length_replicate]
        obtain ⟨hf1, hf2⟩ := finalizeShowdown_sums g3 ws.1 ws.2 hwlen
        refine ⟨?_, hf2⟩
        rw [hf1, hstack3, hwsum]

/-- The two-part chip-accounting relation tracked between betting states:
the conservation total Σ(stack + contributed) is unchanged, and the pot
moves exactly in step with the contributed total. -/
def chipsPreserved (g g' : Game) : Prop :=
  stackContribSum g' = stackContribSum g ∧
  g'.pot + contribSum g = g.pot + contribSum g'

/-- The conservation total splits into stacks plus contributions. -/
theorem scs_eq (g : Game) :
    stackContribSum g = stackSum g + contribSum g := by
  unfold stackContribSum stackSum contribSum
  exact List.sum_map_add

theorem setPlayer_pot (g : Game) (i : Nat) (p : Player) :
    (g.setPlayer i p).pot = g.pot := rfl

theorem chipsPreserved_refl (g : Game) : chipsPreserved g g := ⟨rfl, rfl⟩

theorem chipsPreserved_trans {a b c : Game} (h1 : chipsPreserved a b)
    (h2 : chipsPreserved b c) : chipsPreserved a c := by
  obtain ⟨x1, x2⟩ := h1
  obtain ⟨y1, y2⟩ := h2
  exact ⟨by omega, by omega⟩

/-- `chipsPreserved` implies the stacks-plus-pot bank total is constant. -/
theorem chipsPreserved_bank {a b : Game} (h : chipsPreserved a b) :
    stackSum b + b.pot = stackSum a + a.pot := by
  obtain ⟨h1, h2⟩ := h
  have ha := scs_eq a
  have hb := scs_eq b
  omega

/-- `pay_amount` respects the chip accounting. -/
theorem payAmount_chips (g : Game) (i a : Nat) :
    chipsPreserved g (g.payAmount i a).2 := by
  obtain ⟨h1, _, h3, _⟩ := payAmount_sums g i a
  exact ⟨h1, by omega⟩

/-- Rewriting a seat's `last_action` respects the chip accounting. -/
theorem setPlayer_lastAction_chips (g : Game) (i : Nat)
    (la : Option LastAct) :
    chipsPreserved g (g.setPlayer i { g.player i with lastAction := la }) := by
  constructor
  · exact setPlayer_stackContribSum_eq g i _ rfl
  · have h1 := setPlayer_contribSum_eq g i
      { g.player i with lastAction := la } rfl
    have h2 := setPlayer_pot g i { g.player i with lastAction := la }
    omega

/-- Recording history respects the chip accounting. -/
theorem recordHistory_chips (g : Game) (seat : Nat) (verb : HandHistoryVerb)
    (amt : Option Nat) : chipsPreserved g (g.recordHistory seat verb amt) :=
  ⟨rfl, rfl⟩

/-- Updating a seat's status (keeping stack and contribution) respects the
chip accounting. -/
theorem setPlayer_fold_chips (g : Game) (i : Nat) (la : Option LastAct) :
    chipsPreserved g (g.setPlayer i
      { g.player i with status := .folded, lastAction := la }) := by
  constructor
  · exact setPlayer_stackContribSum_eq g i _ rfl
  · have h1 := setPlayer_contribSum_eq g i
      { g.player i with status := .folded, lastAction := la } rfl
    have h2 := setPlayer_pot g i
      { g.player i with status := .folded, lastAction := la }
    omega

/-- `post_blinds` respects the chip accounting. -/
theorem postBlinds_chips (g : Game) (sb bb : Nat) :
    chipsPreserved g (g.postBlinds sb bb).2 := by
  unfold Game.postBlinds
  dsimp only
  exact chipsPreserved_trans (payAmount_chips g sb g.smallBlind)
    (chipsPreserved_trans (setPlayer_lastAction_chips _ sb _)
      (chipsPreserved_trans (recordHistory_chips _ _ _ _)
        (chipsPreserved_trans (payAmount_chips _ bb _)
          (chipsPreserved_trans (setPlayer_lastAction_chips _ bb _)
            (recordHistory_chips _ _ _ _)))))

/-- Dealing hole cards never touches stacks, bets or contributions. -/
theorem dealHoleGo_sums : ∀ (ps : List Player) (deck : List Card),
    (dealHoleGo ps deck).1.map (·.stack) = ps.map (·.stack) ∧
    (dealHoleGo ps deck).1.map (·.contributed) = ps.map (·.contributed) := by
  intro ps
  induction ps with
  | nil => intro deck; exact ⟨rfl, rfl⟩
  | cons p t ih =>
    intro deck
    unfold dealHoleGo
    by_cases hs : p.status = .active
    · rw [if_pos hs]
      cases deck with
      | nil =>
        obtain ⟨h1, h2⟩ := ih []
        exact ⟨by simp [h1], by simp [h2]⟩
      | cons a rest =>
        cases rest with
        | nil =>
          obtain ⟨h1, h2⟩ := ih []
          exact ⟨by simp [h1], by simp [h2]⟩
        | cons b rest2 =>
          obtain ⟨h1, h2⟩ := ih rest2
          dsimp only
          cases HoleCards.tryNew a b with
          | ok h => exact ⟨by simp [h1], by simp [h2]⟩
          | error e => exact ⟨by simp [h1], by simp [h2]⟩
    · rw [if_neg hs]
      obtain ⟨h1, h2⟩ := ih deck
      exact ⟨by simp [h1], by simp [h2]⟩

/-- After `new_hand`, the bank equals the old stack total and the pot is
exactly the contributed total (the posted blinds). -/
theorem newHand_chips (g : Game) (d : List Card) :
    stackSum (g.newHand d) + (g.newHand d).pot = stackSum g ∧
    (g.newHand d).pot = contribSum (g.newHand d) := by
  unfold Game.newHand
  dsimp only
  set g1 := g.advanceDealer with hg1
  have h1s : stackSum g1 = stackSum g := by
    rw [hg1]
    unfold Game.advanceDealer stackSum
    split <;> rfl
  set g2 := g1.resetHandState d with hg2
  have h2s : stackSum g2 = stackSum g1 := rfl
  have h2pot : g2.pot = 0 := rfl
  set g3 := g2.resetPlayersForNewHand with hg3
  have h3s : stackSum g3 = stackSum g2 := by
    rw [hg3]
    unfold Game.resetPlayersForNewHand stackSum
    dsimp only
    exact sum_map_map
      (fun p => { p with bet := 0, contributed := 0, hole := none, lastAction := none, status := if p.stack = 0 then .folded else .active })
      (·.stack) g2.players (fun p => rfl)
  have h3c : contribSum g3 = 0 := by
    rw [hg3]
    unfold Game.resetPlayersForNewHand contribSum
    dsimp only
    rw [List.map_map]
    have hconst : (List.map ((fun (p : Player) => p.contributed) ∘
        (fun p => { p with bet := 0, contributed := 0, hole := none, lastAction := none, status := if p.stack = 0 then .folded else .active })) g2.players)
        = List.map (fun _ => 0) g2.players := by
      apply List.map_congr_left
      intro p _
      rfl
    rw [hconst]
    simp
  have h3pot : g3.pot = 0 := h2pot
  set g4 := g3.alignDealerToEligible with hg4
  have h4s : stackSum g4 = stackSum g3 := by
    rw [hg4]
    unfold Game.alignDealerToEligible stackSum
    split <;> rfl
  have h4c : contribSum g4 = 0 := by
    have : contribSum g4 = contribSum g3 := by
      rw [hg4]
      unfold Game.alignDealerToEligible contribSum
      split <;> rfl
    rw [this, h3c]
  set g5 : Game := { g4 with winners := [], showdownCategories := List.replicate g4.players.length none } with hg5
  have h5s : stackSum g5 = stackSum g4 := rfl
  have h5c : contribSum g5 = contribSum g4 := rfl
  have h5pot : g5.pot = g4.pot := rfl
  set g6 := g5.dealHoleCards with hg6
  have hdl := dealHoleGo_sums g5.players g5.deck
  have h6s : stackSum g6 = stackSum g5 := by
    rw [hg6]
    unfold Game.dealHoleCards stackSum
    dsimp only
    rw [hdl.1]
  have h6c : contribSum g6 = contribSum g5 := by
    rw [hg6]
    unfold Game.dealHoleCards contribSum
    dsimp only
    rw [hdl.2]
  have h6pot : g6.pot = g5.pot := rfl
  have h4pot : g4.pot = 0 := by
    have hx : g4.pot = g3.pot := by
      rw [hg4]
      unfold Game.alignDealerToEligible
      split <;> rfl
    rw [hx, h3pot]
  unfold Game.setupPreflop
  dsimp only
  split
  · constructor
    · show stackSum g6 + g6.pot = stackSum g
      rw [h6s, h5s, h4s, h3s, h2s, h1s, h6pot, h5pot, h4pot]
      omega
    · show g6.pot = contribSum g6
      rw [h6pot, h5pot, h4pot, h6c, h5c, h4c]
  · set sbb := g6.determineBlindPositions g6.countEligible with hsbb
    set g7 : Game := { g6 with sbPos := some sbb.1, bbPos := some sbb.2 } with hg7
    have h7s : stackSum g7 = stackSum g6 := rfl
    have h7c : contribSum g7 = contribSum g6 := rfl
    have h7pot : g7.pot = g6.pot := rfl
    have hpb := postBlinds_chips g7 sbb.1 sbb.2
    have hbank := chipsPreserved_bank hpb
    have hsync := hpb.2
    have h7pz : g7.pot = 0 := by rw [h7pot, h6pot, h5pot, h4pot]
    have h7cz : contribSum g7 = 0 := by rw [h7c, h6c, h5c, h4c]
    constructor
    · show stackSum (g7.postBlinds sbb.1 sbb.2).2
          + (g7.postBlinds sbb.1 sbb.2).2.pot = stackSum g
      rw [← h1s, ← h2s, ← h3s, ← h4s, ← h5s, ← h6s, ← h7s]
      omega
    · show (g7.postBlinds sbb.1 sbb.2).2.pot
        = contribSum (g7.postBlinds sbb.1 sbb.2).2
      omega

/-- Clearing the round bets for a new street respects the chip
accounting. -/
theorem resetBets_chips (g : Game) :
    chipsPreserved g g.resetBetsSetCurrentPostflop := by
  have hmap : chipsPreserved g { g with players := g.players.map (fun p => { p with bet := 0, lastAction := none }) } := by
    constructor
    · unfold stackContribSum
      dsimp only
      exact sum_map_map (fun p => { p with bet := 0, lastAction := none })
        (fun p => p.stack + p.contributed) g.players (fun p => rfl)
    · have hc : contribSum { g with players := g.players.map (fun p => { p with bet := 0, lastAction := none }) } = contribSum g := by
        unfold contribSum
        dsimp only
        exact sum_map_map (fun p => { p with bet := 0, lastAction := none })
          (·.contributed) g.players (fun p => rfl)
      rw [hc]
  unfold Game.resetBetsSetCurrentPostflop
  dsimp only
  split
  · exact hmap
  · exact chipsPreserved_trans hmap ⟨rfl, rfl⟩

/-- `update_raise_state` only touches round bookkeeping fields. -/
theorem updateRaiseState_chips (g : Game) (i nb : Nat) :
    chipsPreserved g (g.updateRaiseState i nb) := by
  unfold Game.updateRaiseState
  split
  · dsimp only
    split
    · exact ⟨rfl, rfl⟩
    · exact ⟨rfl, rfl⟩
  · exact chipsPreserved_refl g

/-- At showdown, `maybe_force_showdown` is the identity. -/
theorem maybeForceShowdown_id (g : Game) (h : g.street = .showdown) :
    g.maybeForceShowdown = g := by
  unfold Game.maybeForceShowdown
  rw [if_pos h]

/-- `maybe_force_showdown` either leaves the chips as they are or ends at
Showdown. -/
theorem maybeForceShowdown_step (g : Game) :
    chipsPreserved g g.maybeForceShowdown ∨
    (g.maybeForceShowdown).street = .showdown := by
  unfold Game.maybeForceShowdown
  split
  · exact Or.inl (chipsPreserved_refl g)
  · dsimp only
    split
    · exact Or.inl (chipsPreserved_refl g)
    · split
      · exact Or.inl (chipsPreserved_refl g)
      · right
        rw [finishShowdown_street]

/-- `deal_next_street` either preserves the chips or resolves showdown. -/
theorem dealNextStreet_step (g : Game) :
    chipsPreserved g g.dealNextStreet ∨
    (g.dealNextStreet).street = .showdown := by
  unfold Game.dealNextStreet
  cases hs : g.street with
  | preflop =>
    left
    exact chipsPreserved_trans (⟨rfl, rfl⟩ : chipsPreserved g _)
      (resetBets_chips _)
  | flop =>
    cases hd : g.deck with
    | nil => exact Or.inl (chipsPreserved_refl g)
    | cons c rest =>
      left
      exact chipsPreserved_trans (⟨rfl, rfl⟩ : chipsPreserved g _)
        (resetBets_chips _)
  | turn =>
    cases hd : g.deck with
    | nil => exact Or.inl (chipsPreserved_refl g)
    | cons c rest =>
      left
      exact chipsPreserved_trans (⟨rfl, rfl⟩ : chipsPreserved g _)
        (resetBets_chips _)
  | river =>
    right
    rw [finishShowdown_street]
  | showdown => exact Or.inl (chipsPreserved_refl g)

/-- `progress_round` either preserves the chips or resolves showdown. -/
theorem progressRound_step (g : Game) (prev : Nat) (force : Bool) :
    chipsPreserved g (g.progressRound prev force) ∨
    (g.progressRound prev force).street = .showdown := by
  unfold Game.progressRound
  dsimp only
  set g1 : Game := { g with current := g.nextEligibleFrom prev } with hg1
  have hchips1 : chipsPreserved g g1 := ⟨rfl, rfl⟩
  have hstep2 : ∀ (g2 : Game), chipsPreserved g1 g2 ∨ g2.street = .showdown →
      chipsPreserved g (g2.maybeForceShowdown) ∨
        (g2.maybeForceShowdown).street = .showdown := by
    intro g2 h2
    rcases h2 with h2 | h2
    · rcases maybeForceShowdown_step g2 with h3 | h3
      · exact Or.inl (chipsPreserved_trans hchips1
          (chipsPreserved_trans h2 h3))
      · exact Or.inr h3
    · rw [maybeForceShowdown_id g2 h2]
      exact Or.inr h2
  split
  · split
    · exact hstep2 _ (dealNextStreet_step g1)
    · split
      · exact hstep2 _ (dealNextStreet_step g1)
      · exact hstep2 _ (dealNextStreet_step g1)
      · exact hstep2 _ (dealNextStreet_step g1)
      · exact hstep2 _ (Or.inr (by rw [finishShowdown_street]))
      · exact hstep2 _ (Or.inl (chipsPreserved_refl g1))
  · exact hstep2 _ (Or.inl (chipsPreserved_refl g1))

/-- Chips preserved up to a `progress_round` call give the step
disjunction. -/
theorem chips_progress_compose (g gm : Game) (prev : Nat) (force : Bool)
    (h : chipsPreserved g gm) :
    chipsPreserved g (gm.progressRound prev force) ∨
    (gm.progressRound prev force).street = .showdown := by
  rcases progressRound_step gm prev force with hp | hp
  · exact Or.inl (chipsPreserved_trans h hp)
  · exact Or.inr hp

/-- A successful `place_to_amount` either preserves the chips or resolves
showdown. -/
theorem placeToAmount_ok_step (g : Game) (t : Nat) (v : HandHistoryVerb)
    (hok : (g.placeToAmount t v).1 = .ok ()) :
    chipsPreserved g (g.placeToAmount t v).2 ∨
    (g.placeToAmount t v).2.street = .showdown := by
  unfold Game.placeToAmount at hok ⊢
  dsimp only at hok ⊢
  split at hok
  · cases hok
  · rename_i hgt
    rw [if_neg hgt]
    dsimp only
    exact chips_progress_compose g _ g.current true
      (chipsPreserved_trans (payAmount_chips g g.current _)
        (chipsPreserved_trans (setPlayer_lastAction_chips _ g.current _)
          (chipsPreserved_trans (recordHistory_chips _ _ _ _)
            (updateRaiseState_chips _ _ _))))

/-- A successful fold either preserves the chips or resolves showdown. -/
theorem actionFold_ok_step (g : Game)
    (hok : (g.actionFold).1 = .ok ()) :
    chipsPreserved g (g.actionFold).2 ∨
    (g.actionFold).2.street = .showdown := by
  unfold Game.actionFold at hok ⊢
  cases hE : g.ensureCanAct with
  | some e => rw [hE] at hok; cases hok
  | none =>
    rw [hE] at hok
    dsimp only at hok ⊢
    split
    · right
      rw [finishShowdown_street]
    · exact chips_progress_compose g _ _ false
        (chipsPreserved_trans (setPlayer_fold_chips g g.current _)
          (recordHistory_chips _ _ _ _))

/-- A successful check or call either preserves the chips or resolves
showdown. -/
theorem actionCheckCall_ok_step (g : Game)
    (hok : (g.actionCheckCall).1 = .ok ()) :
    chipsPreserved g (g.actionCheckCall).2 ∨
    (g.actionCheckCall).2.street = .showdown := by
  unfold Game.actionCheckCall at hok ⊢
  cases hE : g.ensureCanAct with
  | some e => rw [hE] at hok; cases hok
  | none =>
    rw [hE] at hok
    dsimp only at hok ⊢
    split
    · exact chips_progress_compose g _ _ false
        (chipsPreserved_trans (setPlayer_lastAction_chips g g.current _)
          (recordHistory_chips _ _ _ _))
    · exact chips_progress_compose g _ _ false
        (chipsPreserved_trans (payAmount_chips g g.current _)
          (chipsPreserved_trans (setPlayer_lastAction_chips _ g.current _)
            (recordHistory_chips _ _ _ _)))

/-- A successful minimum bet either preserves the chips or resolves
showdown. -/
theorem actionBetMin_ok_step (g : Game)
    (hok : (g.actionBetMin).1 = .ok ()) :
    chipsPreserved g (g.actionBetMin).2 ∨
    (g.actionBetMin).2.street = .showdown := by
  unfold Game.actionBetMin at hok ⊢
  cases hE : g.ensureCanAct with
  | some e => rw [hE] at hok; cases hok
  | none =>
    rw [hE] at hok
    dsimp only at hok ⊢
    by_cases hcb : 0 < g.currentBet
    · rw [if_pos hcb] at hok
      cases hok
    · rw [if_neg hcb] at hok ⊢
      exact placeToAmount_ok_step g _ _ hok

/-- A successful bet either preserves the chips or resolves showdown. -/
theorem actionBet_ok_step (g : Game) (amount : Nat)
    (hok : (g.actionBet amount).1 = .ok ()) :
    chipsPreserved g (g.actionBet amount).2 ∨
    (g.actionBet amount).2.street = .showdown := by
  unfold Game.actionBet at hok ⊢
  cases hE : g.ensureCanAct with
  | some e => rw [hE] at hok; cases hok
  | none =>
    rw [hE] at hok
    dsimp only at hok ⊢
    by_cases hcb : 0 < g.currentBet
    · rw [if_pos hcb] at hok
      cases hok
    · rw [if_neg hcb] at hok ⊢
      by_cases hsm : amount < max g.bigBlind 1
      · rw [if_pos hsm] at hok
        cases hok
      · rw [if_neg hsm] at hok ⊢
        by_cases hlg : (g.player g.current).bet + (g.player g.current).stack
            < amount
        · rw [if_pos hlg] at hok
          cases hok
        · rw [if_neg hlg] at hok ⊢
          exact placeToAmount_ok_step g _ _ hok

/-- A successful minimum raise either preserves the chips or resolves
showdown. -/
theorem actionRaiseMin_ok_step (g : Game)
    (hok : (g.actionRaiseMin).1 = .ok ()) :
    chipsPreserved g (g.actionRaiseMin).2 ∨
    (g.actionRaiseMin).2.street = .showdown := by
  unfold Game.actionRaiseMin at hok ⊢
  cases hE : g.ensureCanAct with
  | some e => rw [hE] at hok; cases hok
  | none =>
    rw [hE] at hok
    dsimp only at hok ⊢
    by_cases hcb : g.currentBet = 0
    · rw [if_pos hcb] at hok
      cases hok
    · rw [if_neg hcb] at hok ⊢
      exact placeToAmount_ok_step g _ _ hok

/-- A successful raise-to either preserves the chips or resolves
showdown. -/
theorem actionRaiseTo_ok_step (g : Game) (amount : Nat)
    (hok : (g.actionRaiseTo amount).1 = .ok ()) :
    chipsPreserved g (g.actionRaiseTo amount).2 ∨
    (g.actionRaiseTo amount).2.street = .showdown := by
  unfold Game.actionRaiseTo at hok ⊢
  cases hE : g.ensureCanAct with
  | some e => rw [hE] at hok; cases hok
  | none =>
    rw [hE] at hok
    dsimp only at hok ⊢
    by_cases hcb : g.currentBet = 0
    · rw [if_pos hcb] at hok
      cases hok
    · rw [if_neg hcb] at hok ⊢
      by_cases hlg : (g.player g.current).bet + (g.player g.current).stack
          < amount
      · rw [if_pos hlg] at hok
        cases hok
      · rw [if_neg hlg] at hok ⊢
        by_cases hsm : amount < g.currentBet + g.minRaise ∧
            amount < (g.player g.current).bet + (g.player g.current).stack
        · rw [if_pos hsm] at hok
          cases hok
        · rw [if_neg hsm] at hok ⊢
          exact placeToAmount_ok_step g _ _ hok

/-! ### C1: conservation of chips -/

/-- A five-card deck for a heads-up hand (two hole cards per seat plus a
spare). -/
def handDeck : List Card :=
  [⟨.ace, .spades⟩, ⟨.ace, .hearts⟩, ⟨.king, .spades⟩, ⟨.king, .hearts⟩,
   ⟨.two, .clubs⟩]

/-- A fresh heads-up hand: two seats with 100 chips, blinds 5/10. -/
def foldTraceStart : Game := (Game.new 2 100 5 10).newHand handDeck

/-- The state after the first player folds (ending the hand at showdown). -/
def foldTraceEnd : Game := (foldTraceStart.actionFold).2

/-- C1 (amended): chip accounting of the engine.  After `new_hand` the
stacks-plus-pot bank equals the previous stack total and the pot matches
the contributed total; `pay_amount` preserves Σ(stack + contributed) and
keeps the pot in step with the contributions; every successful action
either does the same or ends the hand at Showdown; and `finish_showdown`,
when the pot is nonempty, a maximal contributor is still in contention,
and it returns `Ok`, pays the entire contributed total back into the
stacks and clears the pot.  (The original claim's invariant
Σ(stack + contributed) fails after showdown distribution, because
`finish_showdown` pays stacks without resetting `contributed`; only
`new_hand` clears the contributions.) -/
theorem chip_conservation_per_hand :
    (∀ (g : Game) (d : List Card),
      stackSum (g.newHand d) + (g.newHand d).pot = stackSum g ∧
      (g.newHand d).pot = contribSum (g.newHand d)) ∧
    (∀ (g : Game) (i a : Nat), chipsPreserved g (g.payAmount i a).2) ∧
    (∀ g : Game, (g.actionFold).1 = .ok () →
      chipsPreserved g (g.actionFold).2 ∨
      (g.actionFold).2.street = .showdown) ∧
    (∀ g : Game, (g.actionCheckCall).1 = .ok () →
      chipsPreserved g (g.actionCheckCall).2 ∨
      (g.actionCheckCall).2.street = .showdown) ∧
    (∀ g : Game, (g.actionBetMin).1 = .ok () →
      chipsPreserved g (g.actionBetMin).2 ∨
      (g.actionBetMin).2.street = .showdown) ∧
    (∀ (g : Game) (amount : Nat), (g.actionBet amount).1 = .ok () →
      chipsPreserved g (g.actionBet amount).2 ∨
      (g.actionBet amount).2.street = .showdown) ∧
    (∀ g : Game, (g.actionRaiseMin).1 = .ok () →
      chipsPreserved g (g.actionRaiseMin).2 ∨
      (g.actionRaiseMin).2.street = .showdown) ∧
    (∀ (g : Game) (amount : Nat), (g.actionRaiseTo amount).1 = .ok () →
      chipsPreserved g (g.actionRaiseTo amount).2 ∨
      (g.actionRaiseTo amount).2.street = .showdown) ∧
    (∀ g : Game, contribSum g ≠ 0 →
      (∃ j, j < g.players.length ∧ ¬ (g.player j).status = .folded ∧
        (g.player j).hole.isSome = true ∧
        ∀ i, i < g.players.length →
          (g.player i).contributed ≤ (g.player j).contributed) →
      (Game.finishShowdown g).1 = .ok () →
      stackSum (Game.finishShowdown g).2 = stackSum g + contribSum g ∧
      (Game.finishShowdown g).2.pot = 0) :=
  ⟨newHand_chips, payAmount_chips, actionFold_ok_step,
   actionCheckCall_ok_step, actionBetMin_ok_step, actionBet_ok_step,
   actionRaiseMin_ok_step, actionRaiseTo_ok_step, finishShowdown_payout⟩

/-- Witness for C1 (amended): on the scenario-1 all-in showdown state, the
payout clause fires concretely — the 350 contributed chips all return to
the stacks and the pot ends empty. -/
theorem chip_conservation_per_hand_witness :
    stackSum (Game.finishShowdown sidePotFixture).2
        = stackSum sidePotFixture + contribSum sidePotFixture ∧
    (Game.finishShowdown sidePotFixture).2.pot = 0 :=
  chip_conservation_per_hand.2.2.2.2.2.2.2.2 sidePotFixture (by decide)
    ⟨2, by decide⟩ rfl

/-- Counterexample to C1 as stated: in a fresh 5/10 heads-up hand with 100
chip stacks, a fold resolves showdown; the winner's stack absorbs the 15
blind chips while `contributed` is not reset, so Σ(stack + contributed)
moves from 200 to 215 even though the stacks-plus-pot bank stays 200. -/
theorem chip_conservation_counterexample :
    stackContribSum foldTraceStart = 200 ∧
    (foldTraceStart.actionFold).1 = .ok () ∧
    stackContribSum foldTraceEnd = 215 ∧
    stackSum foldTraceEnd + foldTraceEnd.pot = 200 ∧
    foldTraceEnd.street = .showdown :=
  ⟨by decide, rfl, by decide, by decide, rfl⟩
